import Mathlib

/-!
# go-base-service: request-dump redaction, healthcheck aggregation, response observers

A shallow embedding of `middlewares.go`, `healthcheck.go`, `strategy.go` and
`response_writers.go`, followed by the properties established about them.

A request dump is a list of characters: Go's `regexp` decodes its input rune by
rune, so the regular expressions below see exactly this sequence.
-/

namespace BaseSwaggerService

/-- A byte slice as the regular expressions read it, one decoded character at a time. -/
abbrev Bytes := List Char

/-! ## Regular-expression building blocks

Go's `regexp` returns, among the matches that start leftmost, the one a
backtracking matcher finds first. Each pattern of `middlewares.go` is written
below item by item with the following combinators, in continuation-passing
style: a combinator receives the matcher `k` of the rest of the pattern and
the remaining input. -/

/-- Remove the literal `s` from the front of the input, if it is there. -/
def dropLit : Bytes → Bytes → Option Bytes
  | [], t => some t
  | _ :: _, [] => none
  | c :: cs, d :: ds => if c = d then dropLit cs ds else none

/-- A literal in a pattern. -/
def lit {α : Type} (s : Bytes) (k : Bytes → Option α) (t : Bytes) : Option α :=
  match dropLit s t with
  | some r => k r
  | none => none

/-- Lazy repetition `x*?` of a one-character class (also `x*` under the `U` flag):
the rest of the pattern is tried before another character is consumed. -/
def lazyStar {α : Type} (p : Char → Bool) (k : Bytes → Option α) : Bytes → Option α
  | [] => k []
  | c :: cs =>
    match k (c :: cs) with
    | some r => some r
    | none => if p c then lazyStar p k cs else none

/-- Lazy repetition `x+?` (`x+` under the `U` flag): one character, then `x*?`. -/
def lazyPlus {α : Type} (p : Char → Bool) (k : Bytes → Option α) : Bytes → Option α
  | [] => none
  | c :: cs => if p c then lazyStar p k cs else none

/-- Greedy repetition `x*` of a one-character class: another character is
consumed first, the rest of the pattern is the fallback. -/
def greedyStar {α : Type} (p : Char → Bool) (k : Bytes → Option α) : Bytes → Option α
  | [] => k []
  | c :: cs =>
    if p c then
      match greedyStar p k cs with
      | some r => some r
      | none => k (c :: cs)
    else k (c :: cs)

/-- The assertion `$` under the `m` flag: end of text, or just before a line feed. -/
def eol {α : Type} (k : Bytes → Option α) : Bytes → Option α
  | [] => k []
  | c :: cs => if c = '\n' then k (c :: cs) else none

/-- The class `.` without the `s` flag: any character but the line feed. -/
def dot (c : Char) : Bool := c != '\n'

/-- The class `.` under the `s` flag: any character. -/
def dotAll (_ : Char) : Bool := true

/-- The Perl class `\s` of Go's `regexp`: `[\t\n\f\r ]`. -/
def space (c : Char) : Bool :=
  c == '\t' || c == '\n' || c == Char.ofNat 12 || c == '\r' || c == ' '

/-- The text between two positions of the input, each given by the input left there. -/
def captured (start stop : Bytes) : Bytes := start.take (start.length - stop.length)

/-! ## The patterns of `middlewares.go`

A pattern takes `bol`, whether the position is at the start of the text or
right after a line feed (where `^` holds under the `m` flag), and the input
from the position on. -/

/-- Pattern `(?m)^Authorization:.*$`; yields the input left after the match. -/
def expAuthorization (bol : Bool) (t : Bytes) : Option Bytes :=
  if bol then lit "Authorization:".toList (greedyStar dot (eol some)) t else none

/-- Pattern `(?Um)^Content-Type: multipart/form-data; boundary=(.+)\r\n`; yields group 1. -/
def expFormFieldsBoundary (bol : Bool) (t : Bytes) : Option Bytes :=
  if bol then
    lit "Content-Type: multipart/form-data; boundary=".toList
      (fun g => lazyPlus dot (fun h => lit "\r\n".toList (fun _ => some (captured g h)) h) g) t
  else none

/-- Pattern
`(?Us)Content-Disposition: form-data.+filename=.+\r\nContent-Type:.*(\r\n\r\n.*\r\n--)`;
yields group 1. -/
def expFileBody (_ : Bool) (t : Bytes) : Option Bytes :=
  lit "Content-Disposition: form-data".toList
    (lazyPlus dotAll
      (lit "filename=".toList
        (lazyPlus dotAll
          (lit "\r\nContent-Type:".toList
            (lazyStar dotAll
              (fun g => lit "\r\n\r\n".toList
                (lazyStar dotAll
                  (lit "\r\n--".toList (fun h => some (captured g h)))) g)))))) t

/-- Pattern `(?m)"token":\s*".*?"`; yields the input left after the match. -/
def expToken (_ : Bool) (t : Bytes) : Option Bytes :=
  lit "\"token\":".toList
    (greedyStar space (lit "\"".toList (lazyStar dot (lit "\"".toList some)))) t

/-! ## `regexp` and `bytes` operations used by the dumper -/

/-- The first match of a pattern, scanning start positions left to right
(`FindAllSubmatch(text, 2)` read at index 0). -/
def findFirst {α : Type} (re : Bool → Bytes → Option α) : Bool → Bytes → Option α
  | bol, [] => re bol []
  | bol, c :: cs =>
    match re bol (c :: cs) with
    | some r => some r
    | none => findFirst re (c == '\n') cs

/-- The scan of `Regexp.ReplaceAll`: `skip` counts the characters of the current match
still to pass over. Every pattern here starts with a literal, so no match is empty. The
replacement texts hold no `$`, so they are copied as they are. -/
def replaceAllAux (re : Bool → Bytes → Option Bytes) (repl : Bytes) : Nat → Bool → Bytes → Bytes
  | _, _, [] => []
  | skip + 1, _, c :: cs => replaceAllAux re repl skip (c == '\n') cs
  | 0, bol, c :: cs =>
    match re bol (c :: cs) with
    | some rest => repl ++ replaceAllAux re repl (cs.length - rest.length) (c == '\n') cs
    | none => c :: replaceAllAux re repl 0 (c == '\n') cs

/-- Method `re.ReplaceAll(text, repl)` of a pattern `re`. -/
def replaceAll (re : Bool → Bytes → Option Bytes) (repl : Bytes) (text : Bytes) : Bytes :=
  replaceAllAux re repl 0 true text

/-- The scan of `bytes.Split` for a non-empty separator: the pieces between the
successive non-overlapping occurrences of `sep`. -/
def splitAux (sep : Bytes) : Nat → Bytes → List Bytes
  | _, [] => [[]]
  | skip + 1, _ :: cs => splitAux sep skip cs
  | 0, c :: cs =>
    match dropLit sep (c :: cs) with
    | some _ => [] :: splitAux sep (sep.length - 1) cs
    | none =>
      match splitAux sep 0 cs with
      | p :: ps => (c :: p) :: ps
      | [] => [[c]]

/-- Function `bytes.Split(s, sep)`; an empty separator splits after each character. -/
def bytesSplit (s sep : Bytes) : List Bytes :=
  if sep = [] then s.map (fun c => [c]) else splitAux sep 0 s

/-- Function `bytes.Join(parts, sep)`. -/
def bytesJoin : List Bytes → Bytes → Bytes
  | [], _ => []
  | [p], _ => p
  | p :: q :: ps, sep => p ++ sep ++ bytesJoin (q :: ps) sep

/-- Function `bytes.Replace(s, old, new, 1)`: the first occurrence of `old` becomes `new`. -/
def bytesReplaceFirst (old new : Bytes) : Bytes → Bytes
  | [] =>
    match dropLit old [] with
    | some r => new ++ r
    | none => []
  | c :: cs =>
    match dropLit old (c :: cs) with
    | some r => new ++ r
    | none => c :: bytesReplaceFirst old new cs

/-! ## `middlewares.go` -/

/-- The constant `formFileBodyPlaceholder`. -/
def formFileBodyPlaceholder : Bytes := "\r\n\r\n<--FILE BODY REPLACED-->\r\n--".toList

/-- The body of the loop of `replaceFormFileBody`, for one element of `parts`. -/
def replacePart (part : Bytes) : Bytes :=
  match findFirst expFileBody true part with
  | none => part
  | some g => bytesReplaceFirst g formFileBodyPlaceholder part

/-- Function `replaceFormFileBody`. -/
def replaceFormFileBody (text : Bytes) : Bytes :=
  match findFirst expFormFieldsBoundary true text with
  | none => text
  | some boundary => bytesJoin ((bytesSplit text boundary).map replacePart) boundary

/-- Function `dumpRequest`, as a function of the request's method and of the bytes
`httputil.DumpRequest(r, true)` returned for it. -/
def dumpRequest (method : String) (dump : Bytes) : Bytes :=
  let dump := if method = "POST" then replaceFormFileBody dump else dump
  let dump := replaceAll expAuthorization "Authorization: *****".toList dump
  replaceAll expToken "\"token\": \"*****\"".toList dump

/-! ## `strategy.go` -/

/-- The struct `CheckerResult` of `healthcheck.go`. -/
structure CheckerResult where
  Service : String
  Status : Bool
  deriving DecidableEq, Repr

/-- Method `StrategyErrorOne.setError`: the loop returns `true` at the first failed check. -/
def StrategyErrorOne.setError : List CheckerResult → Bool
  | [] => false
  | check :: checks => if check.Status == false then true else StrategyErrorOne.setError checks

/-- Method `StrategyErrorAll.setError`: the loop returns `false` at the first passed check. -/
def StrategyErrorAll.setError : List CheckerResult → Bool
  | [] => true
  | check :: checks => if check.Status == true then false else StrategyErrorAll.setError checks

/-- Method `StrategyErrorIgnore.setError`. -/
def StrategyErrorIgnore.setError (_ : List CheckerResult) : Bool := false

/-- The interface `StrategyError`. Its only method is unexported, so the three
struct types of the package are all its implementations. -/
inductive StrategyError where
  | StrategyErrorOne
  | StrategyErrorAll
  | StrategyErrorIgnore
  deriving DecidableEq, Repr

/-- Method dispatch on a `StrategyError` value. -/
def StrategyError.setError : StrategyError → List CheckerResult → Bool
  | .StrategyErrorOne => StrategyErrorOne.setError
  | .StrategyErrorAll => StrategyErrorAll.setError
  | .StrategyErrorIgnore => StrategyErrorIgnore.setError

/-! ## `healthcheck.go` -/

/-- The type `Checker`, `func() CheckerResult`. A call either returns a result or
panics; `none` stands for the panic. -/
abbrev Checker := Unit → Option CheckerResult

/-- The struct `Healthcheck`; a nil `Strategy` is `none`. -/
structure Healthcheck where
  Version : String
  ServerName : String
  AppName : String
  Strategy : Option StrategyError
  checkers : List Checker

/-- The values stored in the map `result` of `Check`. -/
inductive Value where
  | str (s : String)
  | checks (l : List CheckerResult)
  deriving DecidableEq, Repr

/-- The map `result` of `Check`, as its key and value pairs. -/
abbrev Summary := List (String × Value)

/-- The loop of `Check` over `h.checkers`: each probe is called in turn and its
result appended; a panic of a probe leaves the loop and the function. -/
def runCheckers : List Checker → Option (List CheckerResult)
  | [] => some []
  | c :: cs =>
    match c () with
    | none => none
    | some r =>
      match runCheckers cs with
      | none => none
      | some rs => some (r :: rs)

/-- The map `result` that `Check` builds from the fields of `h` and the results. -/
def Healthcheck.result (h : Healthcheck) (checks : List CheckerResult) : Summary :=
  let result : Summary :=
    [("server", .str h.ServerName), ("version", .str h.Version), ("application", .str h.AppName)]
  if checks.length > 0 then result ++ [("checkResultList", .checks checks)] else result

/-- Method `Healthcheck.Check`. The serializer `json.Marshal` is a parameter. The
returned triple is `(jsn, hasProblem, err)` with a nil slice as `[]` and a nil
error as `none`; the outer `none` is a panic (of a probe, or of the method call
on a nil `Strategy`). -/
def Healthcheck.Check (marshal : Summary → Except String Bytes) (h : Healthcheck) :
    Option (Bytes × Bool × Option String) :=
  match runCheckers h.checkers with
  | none => none
  | some checks =>
    match h.Strategy with
    | none => none
    | some strategy =>
      let hasProblem := strategy.setError checks
      match marshal (h.result checks) with
      | .ok jsn => some (jsn, hasProblem, none)
      | .error err => some ([], hasProblem, some err)

/-- Method `Healthcheck.AddChecker`. -/
def Healthcheck.AddChecker (h : Healthcheck) (c : Checker) : Healthcheck :=
  { h with checkers := h.checkers ++ [c] }

/-- Function `DbChecker`, as a function of the probe's name and of what `db.Ping()` does
when the probe is called: `none` when the call panics (a nil `db`), else the
error it returns (`none` for nil). -/
def DbChecker (name : String) (ping : Option (Option String)) : Checker := fun _ =>
  match ping with
  | none => none
  | some err =>
    if err = none then some { Service := name, Status := true }
    else some { Service := name, Status := false }

/-- A call received by an `http.ResponseWriter`. -/
inductive Call where
  | headerAdd (key value : String)
  | writeHeader (statusCode : Int)
  | write (content : Bytes)
  deriving DecidableEq, Repr

/-- The handler function returned by `Handler(hc)`: the `Healthcheck` it leaves
behind and the calls it makes on `w`, in order; `none` when `Check` panics. -/
def Handler (marshal : Summary → Except String Bytes) (hc : Healthcheck) :
    Option (Healthcheck × List Call) :=
  let hc := if hc.Strategy = none then { hc with Strategy := some .StrategyErrorOne } else hc
  match hc.Check marshal with
  | none => none
  | some (res, hasProblem, err) =>
    let status : Int := if hasProblem == true || err != none then 500 else 200
    let body : Bytes :=
      match err with
      | none => res
      | some e => e.toList
    some (hc, [.headerAdd "Content-Type" "application/json; charset=utf-8",
               .writeHeader status, .write body])

/-- A serializer for concrete runs: the text `json.Marshal` gives for the map of
`Check` when its strings need no escaping; the keys come in sorted order. -/
def marshalPlain (m : Summary) : Except String Bytes :=
  let quote (s : String) : Bytes := '"' :: s.toList ++ ['"']
  let one (r : CheckerResult) : Bytes :=
    "\x7b\"service\":".toList ++ quote r.Service ++ ",\"status\":".toList ++
      (if r.Status then "true".toList else "false".toList) ++ "\x7d".toList
  let value : Value → Bytes
    | .str s => quote s
    | .checks l => '[' :: List.intercalate [','] (l.map one) ++ [']']
  let keys := ["application", "checkResultList", "server", "version"].filter
    (fun k => (m.lookup k).isSome)
  let field (k : String) : Bytes :=
    match m.lookup k with
    | some v => quote k ++ ':' :: value v
    | none => []
  .ok ("\x7b".toList ++ List.intercalate [','] (keys.map field) ++ "\x7d".toList)

/-! ## `response_writers.go` -/

/-- The methods of the wrapped `http.ResponseWriter`, over the sink's state `σ`:
`Write` returns the new state and its `(int, error)` result. -/
structure ResponseWriter (σ : Type) where
  Header : σ → List (String × List String)
  Write : σ → Bytes → σ × (Int × Option String)
  WriteHeader : σ → Int → σ

/-- The struct `LoggingResponseWriter`; `wrapped` holds the sink's state. -/
structure LoggingResponseWriter (σ : Type) where
  wrapped : σ
  StatusCode : Int
  Content : Bytes

/-- Function `NewLoggingResponseWriter`: the other fields have their zero values. -/
def NewLoggingResponseWriter {σ : Type} (wrapped : σ) : LoggingResponseWriter σ :=
  { wrapped := wrapped, StatusCode := 0, Content := [] }

/-- Method `LoggingResponseWriter.Header`. -/
def LoggingResponseWriter.Header {σ : Type} (w : ResponseWriter σ)
    (lrw : LoggingResponseWriter σ) : List (String × List String) :=
  w.Header lrw.wrapped

/-- Method `LoggingResponseWriter.Write`. -/
def LoggingResponseWriter.Write {σ : Type} (w : ResponseWriter σ)
    (lrw : LoggingResponseWriter σ) (content : Bytes) :
    LoggingResponseWriter σ × (Int × Option String) :=
  let lrw := { lrw with Content := content }
  let r := w.Write lrw.wrapped content
  ({ lrw with wrapped := r.1 }, r.2)

/-- Method `LoggingResponseWriter.WriteHeader`. -/
def LoggingResponseWriter.WriteHeader {σ : Type} (w : ResponseWriter σ)
    (lrw : LoggingResponseWriter σ) (statusCode : Int) : LoggingResponseWriter σ :=
  let lrw := { lrw with StatusCode := statusCode }
  { lrw with wrapped := w.WriteHeader lrw.wrapped statusCode }

/-- A caller's sequence `Write(c₁); …; Write(cₙ)` on the wrapper, with the results returned. -/
def LoggingResponseWriter.writeAll {σ : Type} (w : ResponseWriter σ) :
    LoggingResponseWriter σ → List Bytes → LoggingResponseWriter σ × List (Int × Option String)
  | lrw, [] => (lrw, [])
  | lrw, c :: cs =>
    let r := lrw.Write w c
    let rest := LoggingResponseWriter.writeAll w r.1 cs
    (rest.1, r.2 :: rest.2)

/-- The same sequence of `Write` calls made on the sink itself. -/
def ResponseWriter.writeAll {σ : Type} (w : ResponseWriter σ) :
    σ → List Bytes → σ × List (Int × Option String)
  | s, [] => (s, [])
  | s, c :: cs =>
    let r := w.Write s c
    let rest := ResponseWriter.writeAll w r.1 cs
    (rest.1, r.2 :: rest.2)

/-- A sink that records the calls it receives; its `Write` reports the length written. -/
def recorder : ResponseWriter (List Call) where
  Header := fun _ => []
  Write := fun log content => (log ++ [.write content], ((content.length : Int), none))
  WriteHeader := fun log statusCode => log ++ [.writeHeader statusCode]

/-! ## Notions the properties are stated with -/

/-- The literal the token pattern starts with. -/
def tokenKey : Bytes := "\"token\":".toList

/-- The replacement of the token pattern. -/
def tokenMask : Bytes := "\"token\": \"*****\"".toList

/-- The literal the Authorization pattern starts with. -/
def authorizationKey : Bytes := "Authorization:".toList

/-- The replacement of the Authorization pattern. -/
def authorizationMask : Bytes := "Authorization: *****".toList

/-- The lines of a text: the pieces between its line feeds (a carriage return
before a line feed stays at the end of its line). -/
def lines : Bytes → List Bytes
  | [] => [[]]
  | c :: cs =>
    if c = '\n' then [] :: lines cs
    else
      match lines cs with
      | l :: ls => (c :: l) :: ls
      | [] => [[c]]

/-- What becomes of a line under the Authorization substitution. -/
def maskAuthorizationLine (l : Bytes) : Bytes :=
  match dropLit authorizationKey l with
  | some _ => authorizationMask
  | none => l

/-- The request line and header lines of a dump: its lines before the first
blank line (a line that is a lone carriage return). -/
def headerLines (dump : Bytes) : List Bytes := (lines dump).takeWhile (fun l => l != ['\r'])

/-- Where `^` holds after the text `m`, given whether it held before it. -/
def bolAfter (bol : Bool) (m : Bytes) : Bool :=
  match m.getLast? with
  | none => bol
  | some c => c == '\n'

/-- The header call every response of the handler starts with. -/
def contentTypeCall : Call := .headerAdd "Content-Type" "application/json; charset=utf-8"

/-! # Properties -/

/-! ## Building blocks -/

theorem dropLit_append (s t : Bytes) : dropLit s (s ++ t) = some t := by
  induction s with
  | nil => cases t <;> rfl
  | cons c cs ih => simp [dropLit, ih]

theorem dropLit_eq_some {s t r : Bytes} (h : dropLit s t = some r) : t = s ++ r := by
  induction s generalizing t with
  | nil =>
    cases t <;> simp_all [dropLit]
  | cons c cs ih =>
    cases t with
    | nil => simp [dropLit] at h
    | cons d ds =>
      by_cases hcd : c = d
      · simp only [dropLit, hcd, if_true] at h
        rw [hcd, ih h]
        rfl
      · simp [dropLit, hcd] at h

theorem dropLit_eq_none_of_not_start {s t : Bytes} (h : ¬ s <+: t) : dropLit s t = none := by
  cases hd : dropLit s t with
  | none => rfl
  | some r => exact absurd ⟨r, (dropLit_eq_some hd).symm⟩ h

theorem lit_eq_some {α : Type} {s : Bytes} {k : Bytes → Option α} {t : Bytes} {r : α}
    (h : lit s k t = some r) : ∃ rest, t = s ++ rest ∧ k rest = some r := by
  unfold lit at h
  cases hd : dropLit s t with
  | none => simp [hd] at h
  | some rest =>
    rw [hd] at h
    exact ⟨rest, dropLit_eq_some hd, h⟩

theorem lit_append {α : Type} (s : Bytes) (k : Bytes → Option α) (t : Bytes) :
    lit s k (s ++ t) = k t := by
  simp [lit, dropLit_append]

theorem lit_eq_none_of_not_start {α : Type} {s : Bytes} (k : Bytes → Option α) {t : Bytes}
    (h : ¬ s <+: t) : lit s k t = none := by
  simp [lit, dropLit_eq_none_of_not_start h]

theorem lazyStar_eq_some {α : Type} {p : Char → Bool} {k : Bytes → Option α} {t : Bytes} {r : α}
    (h : lazyStar p k t = some r) : ∃ a b, t = a ++ b ∧ k b = some r := by
  induction t with
  | nil => exact ⟨[], [], rfl, h⟩
  | cons c cs ih =>
    unfold lazyStar at h
    cases hk : k (c :: cs) with
    | some r' =>
      rw [hk] at h
      exact ⟨[], c :: cs, rfl, hk.trans h⟩
    | none =>
      rw [hk] at h
      by_cases hp : p c = true
      · simp only [hp, if_true] at h
        obtain ⟨a, b, hab, hr⟩ := ih h
        exact ⟨c :: a, b, by rw [hab]; rfl, hr⟩
      · simp [hp] at h

theorem lazyPlus_eq_some {α : Type} {p : Char → Bool} {k : Bytes → Option α} {t : Bytes} {r : α}
    (h : lazyPlus p k t = some r) : ∃ a b, t = a ++ b ∧ k b = some r := by
  cases t with
  | nil => simp [lazyPlus] at h
  | cons c cs =>
    unfold lazyPlus at h
    by_cases hp : p c = true
    · simp only [hp, if_true] at h
      obtain ⟨a, b, hab, hr⟩ := lazyStar_eq_some h
      exact ⟨c :: a, b, by rw [hab]; rfl, hr⟩
    · simp [hp] at h

/-- A lazy repetition stops at the first place where the rest of the pattern matches. -/
theorem lazyStar_append {α : Type} (p : Char → Bool) (k : Bytes → Option α) (a b : Bytes)
    (hp : ∀ c ∈ a, p c = true) (hk : ∀ s, s ≠ [] → s <:+ a → k (s ++ b) = none) :
    lazyStar p k (a ++ b) = lazyStar p k b := by
  induction a with
  | nil => rfl
  | cons c cs ih =>
    have h1 : k (c :: cs ++ b) = none := hk (c :: cs) (by simp) (List.suffix_refl _)
    have h2 : p c = true := hp c (List.mem_cons_self _ _)
    have h3 : lazyStar p k (c :: cs ++ b) = lazyStar p k (cs ++ b) := by
      show lazyStar p k (c :: (cs ++ b)) = _
      rw [lazyStar]
      simp only [List.cons_append] at h1
      rw [h1]
      simp [h2]
    rw [h3]
    exact ih (fun c' hc' => hp c' (List.mem_cons_of_mem _ hc'))
      (fun s hs hsuf => hk s hs (hsuf.trans (List.suffix_cons _ _)))

/-- A greedy repetition runs through a stretch of the class that ends where the
class stops, when the rest of the pattern matches there. -/
theorem greedyStar_append {α : Type} (p : Char → Bool) (k : Bytes → Option α) (a b : Bytes)
    (r : α) (hp : ∀ c ∈ a, p c = true) (hb : greedyStar p k b = some r) :
    greedyStar p k (a ++ b) = some r := by
  induction a with
  | nil => exact hb
  | cons c cs ih =>
    have h2 : p c = true := hp c (List.mem_cons_self _ _)
    show greedyStar p k (c :: (cs ++ b)) = _
    rw [greedyStar]
    simp [h2, ih (fun c' hc' => hp c' (List.mem_cons_of_mem _ hc'))]

theorem findFirst_eq_some {α : Type} {re : Bool → Bytes → Option α} {bol : Bool} {t : Bytes}
    {r : α} (h : findFirst re bol t = some r) : ∃ b s, re b s = some r := by
  induction t generalizing bol with
  | nil => exact ⟨bol, [], h⟩
  | cons c cs ih =>
    unfold findFirst at h
    cases hre : re bol (c :: cs) with
    | some r' =>
      rw [hre] at h
      exact ⟨bol, c :: cs, hre.trans h⟩
    | none =>
      rw [hre] at h
      exact ih h

/-! ## The scan of `ReplaceAll` -/

theorem bolAfter_cons (bol : Bool) (c : Char) (m : Bytes) :
    bolAfter bol (c :: m) = bolAfter (c == '\n') m := by
  cases m with
  | nil => rfl
  | cons d ds =>
    rw [bolAfter, bolAfter, List.getLast?_cons_cons]
    cases hl : (d :: ds).getLast? with
    | none => simp at hl
    | some x => rfl

theorem replaceAllAux_skip (re : Bool → Bytes → Option Bytes) (repl : Bytes) (m rest : Bytes)
    (bol : Bool) :
    replaceAllAux re repl m.length bol (m ++ rest) =
      replaceAllAux re repl 0 (bolAfter bol m) rest := by
  induction m generalizing bol with
  | nil => rfl
  | cons c cs ih =>
    rw [bolAfter_cons, ← ih]
    rfl

theorem replaceAllAux_match (re : Bool → Bytes → Option Bytes) (repl : Bytes) (c : Char)
    (m rest : Bytes) (bol : Bool) (h : re bol (c :: m ++ rest) = some rest) :
    replaceAllAux re repl 0 bol (c :: m ++ rest) =
      repl ++ replaceAllAux re repl 0 (bolAfter bol (c :: m)) rest := by
  show replaceAllAux re repl 0 bol (c :: (m ++ rest)) = _
  rw [replaceAllAux]
  simp only [List.cons_append] at h
  rw [h]
  simp only [List.length_append, Nat.add_sub_cancel]
  rw [replaceAllAux_skip, bolAfter_cons]

theorem replaceAllAux_no_match (re : Bool → Bytes → Option Bytes) (repl : Bytes) (c : Char)
    (cs : Bytes) (bol : Bool) (h : re bol (c :: cs) = none) :
    replaceAllAux re repl 0 bol (c :: cs) = c :: replaceAllAux re repl 0 (c == '\n') cs := by
  rw [replaceAllAux, h]

/-- A stretch in which the pattern matches nowhere is copied. -/
theorem replaceAllAux_copy (re : Bool → Bytes → Option Bytes) (repl : Bytes) (a rest : Bytes)
    (bol : Bool)
    (h : ∀ s, s ≠ [] → s <:+ a → ∀ b, re b (s ++ rest) = none) :
    replaceAllAux re repl 0 bol (a ++ rest) =
      a ++ replaceAllAux re repl 0 (bolAfter bol a) rest := by
  induction a generalizing bol with
  | nil => rfl
  | cons c cs ih =>
    have h1 : re bol (c :: (cs ++ rest)) = none :=
      h (c :: cs) (by simp) (List.suffix_refl _) bol
    show replaceAllAux re repl 0 bol (c :: (cs ++ rest)) = _
    rw [replaceAllAux_no_match _ _ _ _ _ h1, bolAfter_cons,
      ih _ (fun s hs hsuf => h s hs (hsuf.trans (List.suffix_cons _ _)))]
    rfl

/-! ## The token substitution -/

theorem expToken_key {b : Bool} {t r : Bytes} (h : expToken b t = some r) : tokenKey <+: t := by
  obtain ⟨rest, ht, -⟩ := lit_eq_some h
  exact ⟨rest, ht.symm⟩

/-- The pattern matches a field `"token":`, white space, `"`, a value without `"`
or line feed, `"`, and ends right after that closing quote. -/
theorem expToken_field (b : Bool) (ws X post : Bytes) (hws : ∀ c ∈ ws, space c = true)
    (hq : '"' ∉ X) (hn : '\n' ∉ X) :
    expToken b (tokenKey ++ ws ++ '"' :: X ++ '"' :: post) = some post := by
  have hvalue : lazyStar dot (lit "\"".toList some) (X ++ '"' :: post) = some post := by
    rw [lazyStar_append]
    · rfl
    · intro c hc
      have : c ≠ '\n' := fun h => hn (h ▸ hc)
      simpa [dot] using this
    · intro s hs hsuf
      cases s with
      | nil => exact absurd rfl hs
      | cons c cs =>
        have hc : c ∈ X := hsuf.subset (List.mem_cons_self _ _)
        have : c ≠ '"' := fun h => hq (h ▸ hc)
        apply lit_eq_none_of_not_start
        rintro ⟨r, hr⟩
        simp only [String.toList, List.cons_append, List.nil_append, List.cons.injEq] at hr
        exact this hr.1.symm
  have hquote : greedyStar space (lit "\"".toList (lazyStar dot (lit "\"".toList some)))
      ('"' :: (X ++ '"' :: post)) = some post := by
    rw [greedyStar]
    have : space '"' = false := by decide
    simp only [this]
    exact hvalue
  have : tokenKey ++ ws ++ '"' :: X ++ '"' :: post =
      tokenKey ++ (ws ++ '"' :: (X ++ '"' :: post)) := by simp
  rw [this, expToken]
  show lit tokenKey _ _ = _
  rw [lit_append]
  exact greedyStar_append _ _ _ _ _ hws hquote

/-- The literal `"token":` overlaps no shifted copy of itself. -/
theorem tokenKey_no_overlap (s rest : Bytes) (h : tokenKey <+: s ++ (tokenKey ++ rest)) :
    s = [] ∨ tokenKey <+: s := by
  obtain ⟨r, hr⟩ := h
  rcases s with _ | ⟨c1, _ | ⟨c2, _ | ⟨c3, _ | ⟨c4, _ | ⟨c5, _ | ⟨c6, _ | ⟨c7, _ | ⟨c8, s⟩⟩⟩⟩⟩⟩⟩⟩
  · exact Or.inl rfl
  all_goals
    right
    simp only [tokenKey, String.toList, List.cons_append, List.nil_append, List.cons.injEq] at hr
  · simp at hr
  · simp at hr
  · simp at hr
  · simp at hr
  · simp at hr
  · simp at hr
  · simp at hr
  obtain ⟨h1, h2, h3, h4, h5, h6, h7, h8, -⟩ := hr
  subst h1 h2 h3 h4 h5 h6 h7 h8
  exact ⟨s, rfl⟩

/-- No match starts in a stretch without `"token":` that is followed by a field. -/
theorem expToken_none_before_key (pre rest : Bytes) (hpre : ¬ tokenKey <:+: pre) (s : Bytes)
    (hs : s ≠ []) (hsuf : s <:+ pre) (b : Bool) : expToken b (s ++ (tokenKey ++ rest)) = none := by
  cases h : expToken b (s ++ (tokenKey ++ rest)) with
  | none => rfl
  | some r =>
    rcases tokenKey_no_overlap s rest (expToken_key h) with h0 | hp
    · exact absurd h0 hs
    · exact absurd (hp.isInfix.trans hsuf.isInfix) hpre

/-- A text without `"token":` is left as it is. -/
theorem replaceAll_expToken_of_no_key (t : Bytes) (ht : ¬ tokenKey <:+: t) (b : Bool) :
    replaceAllAux expToken tokenMask 0 b t = t := by
  have := replaceAllAux_copy expToken tokenMask t [] b (by
    intro s _ hsuf b'
    cases h : expToken b' (s ++ []) with
    | none => rfl
    | some r =>
      rw [List.append_nil] at h
      exact absurd ((expToken_key h).isInfix.trans hsuf.isInfix) ht)
  simpa [replaceAllAux] using this

theorem replaceAllAux_expToken_bol (k : Nat) (b b' : Bool) (t : Bytes) :
    replaceAllAux expToken tokenMask k b t = replaceAllAux expToken tokenMask k b' t := by
  induction t generalizing k b b' with
  | nil => simp [replaceAllAux]
  | cons c cs ih =>
    cases k with
    | succ k => exact ih k _ _
    | zero =>
      rw [replaceAllAux, replaceAllAux]
      have : expToken b (c :: cs) = expToken b' (c :: cs) := rfl
      rw [this]

/-- The first token field of a text is replaced by the mask; what precedes it is
copied and what follows it is processed in the same way. -/
theorem replaceAll_expToken_first (pre ws X post : Bytes) (hpre : ¬ tokenKey <:+: pre)
    (hws : ∀ c ∈ ws, space c = true) (hq : '"' ∉ X) (hn : '\n' ∉ X) :
    replaceAll expToken tokenMask (pre ++ (tokenKey ++ ws ++ '"' :: X ++ ['"']) ++ post) =
      pre ++ tokenMask ++ replaceAll expToken tokenMask post := by
  have hfield : ∀ b, expToken b ('"' :: ("token\":".toList ++ ws ++ '"' :: X ++ ['"']) ++ post) =
      some post := by
    intro b
    have := expToken_field b ws X post hws hq hn
    simpa [tokenKey] using this
  have e1 : pre ++ (tokenKey ++ ws ++ '"' :: X ++ ['"']) ++ post =
      pre ++ (tokenKey ++ (ws ++ '"' :: X ++ '"' :: post)) := by simp
  have e2 : tokenKey ++ (ws ++ '"' :: X ++ '"' :: post) =
      '"' :: ("token\":".toList ++ ws ++ '"' :: X ++ ['"']) ++ post := by simp [tokenKey]
  rw [replaceAll, e1,
    replaceAllAux_copy expToken tokenMask pre _ true
      (fun s hs hsuf b => expToken_none_before_key pre _ hpre s hs hsuf b),
    e2, replaceAllAux_match expToken tokenMask _ _ _ _ (hfield _),
    replaceAllAux_expToken_bol 0 _ true, replaceAll]
  simp

/-! ## Lines -/

theorem lines_ne_nil (t : Bytes) : lines t ≠ [] := by
  induction t with
  | nil => simp [lines]
  | cons c cs ih =>
    unfold lines
    split
    · simp
    · split <;> simp

theorem lines_of_no_lf (l : Bytes) (hl : '\n' ∉ l) : lines l = [l] := by
  induction l with
  | nil => rfl
  | cons c cs ih =>
    have hc : c ≠ '\n' := fun h => hl (h ▸ List.mem_cons_self _ _)
    have hcs : '\n' ∉ cs := fun h => hl (List.mem_cons_of_mem _ h)
    simp [lines, hc, ih hcs]

theorem lines_append_lf (l t : Bytes) (hl : '\n' ∉ l) :
    lines (l ++ '\n' :: t) = l :: lines t := by
  induction l with
  | nil => simp [lines]
  | cons c cs ih =>
    have hc : c ≠ '\n' := fun h => hl (h ▸ List.mem_cons_self _ _)
    have hcs : '\n' ∉ cs := fun h => hl (List.mem_cons_of_mem _ h)
    simp [lines, hc, ih hcs]

/-- Every text is a first line followed by nothing or by a line feed and the rest. -/
theorem exists_first_line (t : Bytes) :
    ∃ l, '\n' ∉ l ∧ (t = l ∨ ∃ rest, t = l ++ '\n' :: rest) := by
  induction t with
  | nil => exact ⟨[], by simp, Or.inl rfl⟩
  | cons c cs ih =>
    by_cases hc : c = '\n'
    · exact ⟨[], by simp, Or.inr ⟨cs, by simp [hc]⟩⟩
    · obtain ⟨l, hl, h | ⟨rest, h⟩⟩ := ih
      · exact ⟨c :: l, by simp [hl, Ne.symm hc], Or.inl (by rw [h])⟩
      · exact ⟨c :: l, by simp [hl, Ne.symm hc], Or.inr ⟨rest, by rw [h]; rfl⟩⟩

/-! ## The Authorization substitution -/

theorem expAuthorization_false (t : Bytes) : expAuthorization false t = none := rfl

theorem expAuthorization_key {b : Bool} {t r : Bytes} (h : expAuthorization b t = some r) :
    b = true ∧ authorizationKey <+: t := by
  cases b with
  | false => simp [expAuthorization] at h
  | true =>
    simp only [expAuthorization, if_true] at h
    obtain ⟨rest, ht, -⟩ := lit_eq_some h
    exact ⟨rfl, rest, ht.symm⟩

/-- At the start of a line that begins with `Authorization:`, the pattern
matches up to the end of the line. -/
theorem expAuthorization_line (v rest : Bytes) (hv : '\n' ∉ v)
    (hrest : rest = [] ∨ ∃ t, rest = '\n' :: t) :
    expAuthorization true (authorizationKey ++ v ++ rest) = some rest := by
  have hend : greedyStar dot (eol some) rest = some rest := by
    rcases hrest with h | ⟨t, h⟩
    · subst h
      rfl
    · subst h
      rfl
  simp only [expAuthorization, if_true]
  show lit authorizationKey _ _ = _
  rw [List.append_assoc, lit_append]
  apply greedyStar_append _ _ _ _ _ _ hend
  intro c hc
  have : c ≠ '\n' := fun h => hv (h ▸ hc)
  simpa [dot] using this

theorem expAuthorization_lf (b : Bool) (t : Bytes) : expAuthorization b ('\n' :: t) = none := by
  cases b <;> rfl

/-- The scan over one line and the line feed after it. -/
theorem replaceAll_expAuthorization_line (l : Bytes) (hl : '\n' ∉ l) :
    replaceAllAux expAuthorization authorizationMask 0 true l = maskAuthorizationLine l ∧
    ∀ t, replaceAllAux expAuthorization authorizationMask 0 true (l ++ '\n' :: t) =
      maskAuthorizationLine l ++
        '\n' :: replaceAllAux expAuthorization authorizationMask 0 true t := by
  have hlf : ∀ b t, replaceAllAux expAuthorization authorizationMask 0 b ('\n' :: t) =
      '\n' :: replaceAllAux expAuthorization authorizationMask 0 true t := by
    intro b t
    rw [replaceAllAux_no_match _ _ _ _ _ (expAuthorization_lf b t)]
    rfl
  have hcopy : ∀ (a rest : Bytes), '\n' ∉ a →
      replaceAllAux expAuthorization authorizationMask 0 false (a ++ rest) =
        a ++ replaceAllAux expAuthorization authorizationMask 0 false rest := by
    intro a rest ha
    induction a with
    | nil => rfl
    | cons c cs ih =>
      have hc : (c == '\n') = false := by
        have : c ≠ '\n' := fun h => ha (h ▸ List.mem_cons_self _ _)
        simpa using this
      show replaceAllAux expAuthorization authorizationMask 0 false (c :: (cs ++ rest)) = _
      rw [replaceAllAux_no_match _ _ _ _ _ (expAuthorization_false _), hc,
        ih (fun h => ha (List.mem_cons_of_mem _ h))]
      rfl
  cases hd : dropLit authorizationKey l with
  | some v =>
    have hlv : l = authorizationKey ++ v := dropLit_eq_some hd
    have hv : '\n' ∉ v := fun h => hl (by rw [hlv]; exact List.mem_append_right _ h)
    have hm : maskAuthorizationLine l = authorizationMask := by
      simp [maskAuthorizationLine, hd]
    have hstep : ∀ rest, (rest = [] ∨ ∃ t, rest = '\n' :: t) →
        replaceAllAux expAuthorization authorizationMask 0 true (l ++ rest) =
          authorizationMask ++ replaceAllAux expAuthorization authorizationMask 0
            (bolAfter true ('A' :: ("uthorization:".toList ++ v))) rest := by
      intro rest hrest
      have h := expAuthorization_line v rest hv hrest
      have e : authorizationKey ++ v ++ rest = 'A' :: ("uthorization:".toList ++ v) ++ rest := by
        simp [authorizationKey]
      rw [e] at h
      rw [hlv, e]
      exact replaceAllAux_match _ _ _ _ _ _ h
    rw [hm]
    refine ⟨?_, fun t => ?_⟩
    · have := hstep [] (Or.inl rfl)
      simpa [replaceAllAux] using this
    · rw [hstep _ (Or.inr ⟨t, rfl⟩), hlf]
  | none =>
    have hm : maskAuthorizationLine l = l := by
      simp [maskAuthorizationLine, hd]
    have hfirst : ∀ rest, (rest = [] ∨ ∃ t, rest = '\n' :: t) →
        replaceAllAux expAuthorization authorizationMask 0 true (l ++ rest) =
          l ++ replaceAllAux expAuthorization authorizationMask 0
            (if l = [] then true else false) rest := by
      intro rest hrest
      cases l with
      | nil => simp
      | cons c cs =>
        have hno : expAuthorization true (c :: cs ++ rest) = none := by
          cases h : expAuthorization true (c :: cs ++ rest) with
          | none => rfl
          | some r =>
            exfalso
            obtain ⟨-, q, hq⟩ := expAuthorization_key h
            have hp : authorizationKey <+: c :: cs := by
              rcases hrest with h0 | ⟨t, h0⟩
              · subst h0
                exact ⟨q, by simpa using hq⟩
              · subst h0
                have hlen : authorizationKey.length ≤ (c :: cs).length := by
                  by_contra hlt
                  push_neg at hlt
                  have hmem : '\n' ∈ authorizationKey := by
                    have h1 : (c :: cs) ++ ['\n'] <+: authorizationKey ++ q := by
                      rw [hq]
                      exact ⟨t, by simp⟩
                    have h2 : (c :: cs) ++ ['\n'] <+: authorizationKey :=
                      List.prefix_of_prefix_length_le h1 (List.prefix_append _ _)
                        (by simpa using hlt)
                    exact h2.subset (by simp)
                  revert hmem
                  decide
                exact List.prefix_of_prefix_length_le ⟨q, hq⟩ (List.prefix_append _ _) hlen
            obtain ⟨v, hv⟩ := hp
            rw [← hv, dropLit_append] at hd
            exact absurd hd (by simp)
        have hc : (c == '\n') = false := by
          have : c ≠ '\n' := fun h => hl (h ▸ List.mem_cons_self _ _)
          simpa using this
        show replaceAllAux expAuthorization authorizationMask 0 true (c :: (cs ++ rest)) = _
        have hno' : expAuthorization true (c :: (cs ++ rest)) = none := hno
        rw [replaceAllAux_no_match _ _ _ _ _ hno', hc,
          hcopy cs rest (fun h => hl (List.mem_cons_of_mem _ h))]
        simp
    rw [hm]
    refine ⟨?_, fun t => ?_⟩
    · have := hfirst [] (Or.inl rfl)
      simpa [replaceAllAux] using this
    · rw [hfirst _ (Or.inr ⟨t, rfl⟩), hlf]

/-- The Authorization substitution works line by line: a line that starts with
`Authorization:` becomes `Authorization: *****`, every other line is kept. -/
theorem lines_replaceAll_expAuthorization (t : Bytes) :
    lines (replaceAll expAuthorization authorizationMask t) =
      (lines t).map maskAuthorizationLine := by
  have hmask : ∀ l, '\n' ∉ l → '\n' ∉ maskAuthorizationLine l := by
    intro l hl
    unfold maskAuthorizationLine
    split
    · decide
    · exact hl
  suffices h : ∀ n (t : Bytes), t.length ≤ n →
      lines (replaceAllAux expAuthorization authorizationMask 0 true t) =
        (lines t).map maskAuthorizationLine from h t.length t le_rfl
  intro n
  induction n with
  | zero =>
    intro t ht
    have : t = [] := List.length_eq_zero.mp (Nat.le_zero.mp ht)
    subst this
    rfl
  | succ n ih =>
    intro t ht
    obtain ⟨l, hl, h | ⟨rest, h⟩⟩ := exists_first_line t
    · subst h
      rw [(replaceAll_expAuthorization_line t hl).1, lines_of_no_lf _ hl,
        lines_of_no_lf _ (hmask t hl)]
      rfl
    · subst h
      have hlen : rest.length ≤ n := by
        simp only [List.length_append, List.length_cons] at ht
        omega
      rw [(replaceAll_expAuthorization_line l hl).2, lines_append_lf _ _ hl,
        lines_append_lf _ _ (hmask l hl), ih rest hlen]
      rfl

/-! ## Splitting and joining -/

theorem splitAux_ne_nil (sep : Bytes) (k : Nat) (t : Bytes) : splitAux sep k t ≠ [] := by
  induction t generalizing k with
  | nil => simp [splitAux]
  | cons c cs ih =>
    cases k with
    | succ k => exact ih k
    | zero =>
      unfold splitAux
      split
      · simp
      · split <;> simp

theorem splitAux_skip (sep : Bytes) (k : Nat) (t : Bytes) :
    splitAux sep k t = splitAux sep 0 (t.drop k) := by
  induction t generalizing k with
  | nil => simp [splitAux]
  | cons c cs ih =>
    cases k with
    | succ k => exact ih k
    | zero => rfl

theorem bytesJoin_cons_of_ne_nil (p : Bytes) (ps : List Bytes) (sep : Bytes) (h : ps ≠ []) :
    bytesJoin (p :: ps) sep = p ++ sep ++ bytesJoin ps sep := by
  cases ps with
  | nil => exact absurd rfl h
  | cons q qs => rfl

theorem bytesJoin_cons_head (c : Char) (p : Bytes) (ps : List Bytes) (sep : Bytes) :
    bytesJoin ((c :: p) :: ps) sep = c :: bytesJoin (p :: ps) sep := by
  cases ps with
  | nil => rfl
  | cons q qs => rfl

/-- Joining the pieces of a split with the separator gives the text back. -/
theorem bytesJoin_bytesSplit (t sep : Bytes) : bytesJoin (bytesSplit t sep) sep = t := by
  unfold bytesSplit
  split
  · rename_i h
    subst h
    induction t with
    | nil => rfl
    | cons c cs ih =>
      cases cs with
      | nil => rfl
      | cons d ds =>
        simp only [List.map_cons] at ih ⊢
        rw [bytesJoin_cons_of_ne_nil _ _ _ (by simp), ih]
        rfl
  · rename_i hsep
    suffices h : ∀ n (t : Bytes), t.length ≤ n → bytesJoin (splitAux sep 0 t) sep = t from
      h t.length t le_rfl
    intro n
    induction n with
    | zero =>
      intro t ht
      have : t = [] := List.length_eq_zero.mp (Nat.le_zero.mp ht)
      subst this
      rfl
    | succ n ih =>
      intro t ht
      cases t with
      | nil => rfl
      | cons c cs =>
        unfold splitAux
        cases hd : dropLit sep (c :: cs) with
        | some r =>
          have hr : c :: cs = sep ++ r := dropLit_eq_some hd
          cases sep with
          | nil => exact absurd rfl hsep
          | cons s0 sep' =>
            simp only [List.cons_append, List.cons.injEq] at hr
            have hcs : cs = sep' ++ r := hr.2
            have hlen : r.length ≤ n := by
              have := congrArg List.length hcs
              simp only [List.length_cons, List.length_append] at ht this
              omega
            simp only [List.length_cons, Nat.add_sub_cancel]
            rw [splitAux_skip, hcs, List.drop_left,
              bytesJoin_cons_of_ne_nil _ _ _ (splitAux_ne_nil _ _ _), ih r hlen, hr.1]
            simp
        | none =>
          have hlen : cs.length ≤ n := by
            simp only [List.length_cons] at ht
            omega
          have hih := ih cs hlen
          cases hs : splitAux sep 0 cs with
          | nil => exact absurd hs (splitAux_ne_nil _ _ _)
          | cons p ps =>
            rw [hs] at hih
            simp only []
            rw [bytesJoin_cons_head, hih]

/-! ## The file-body substitution keeps the header lines -/

theorem captured_append (x h : Bytes) : captured (x ++ h) h = x := by
  simp [captured]

/-- Group 1 of the file pattern starts with the blank-line separator. -/
theorem expFileBody_group {b : Bool} {t g : Bytes} (h : expFileBody b t = some g) :
    ∃ body, g = "\r\n\r\n".toList ++ body := by
  unfold expFileBody at h
  obtain ⟨_, -, h⟩ := lit_eq_some h
  obtain ⟨_, _, -, h⟩ := lazyPlus_eq_some h
  obtain ⟨_, -, h⟩ := lit_eq_some h
  obtain ⟨_, _, -, h⟩ := lazyPlus_eq_some h
  obtain ⟨_, -, h⟩ := lit_eq_some h
  obtain ⟨_, s, -, h⟩ := lazyStar_eq_some h
  obtain ⟨r1, hs, h⟩ := lit_eq_some h
  obtain ⟨a, r2, hr1, h⟩ := lazyStar_eq_some h
  obtain ⟨r3, hr2, h⟩ := lit_eq_some h
  simp only [Option.some.injEq] at h
  refine ⟨a ++ "\r\n--".toList, ?_⟩
  rw [← h, hs, hr1, hr2]
  have : "\r\n\r\n".toList ++ (a ++ ("\r\n--".toList ++ r3)) =
      ("\r\n\r\n".toList ++ (a ++ "\r\n--".toList)) ++ r3 := by simp
  rw [this, captured_append]

theorem bytesReplaceFirst_shape (old new t : Bytes) :
    bytesReplaceFirst old new t = t ∨
      ∃ a b, t = a ++ old ++ b ∧ bytesReplaceFirst old new t = a ++ new ++ b := by
  induction t with
  | nil =>
    unfold bytesReplaceFirst
    cases hd : dropLit old [] with
    | none => exact Or.inl rfl
    | some r =>
      right
      exact ⟨[], r, by simpa using dropLit_eq_some hd, by simp⟩
  | cons c cs ih =>
    unfold bytesReplaceFirst
    cases hd : dropLit old (c :: cs) with
    | some r =>
      right
      exact ⟨[], r, by simpa using dropLit_eq_some hd, by simp⟩
    | none =>
      rcases ih with h | ⟨a, b, h1, h2⟩
      · left
        simp only []
        rw [h]
      · right
        refine ⟨c :: a, b, by rw [h1]; rfl, ?_⟩
        simp only []
        rw [h2]
        rfl

/-- One element of `parts` is either kept, or changed only after a blank-line
separator it contains. -/
theorem replacePart_shape (part : Bytes) :
    replacePart part = part ∨
      ∃ a x y, part = a ++ "\r\n\r\n".toList ++ x ∧
        replacePart part = a ++ "\r\n\r\n".toList ++ y := by
  unfold replacePart
  cases hf : findFirst expFileBody true part with
  | none => exact Or.inl rfl
  | some g =>
    obtain ⟨b, s, hg⟩ := findFirst_eq_some hf
    obtain ⟨body, hbody⟩ := expFileBody_group hg
    rcases bytesReplaceFirst_shape g formFileBodyPlaceholder part with h | ⟨a, c, h1, h2⟩
    · exact Or.inl h
    · right
      refine ⟨a, body ++ c, "<--FILE BODY REPLACED-->\r\n--".toList ++ c, ?_, ?_⟩
      · rw [h1, hbody]
        simp
      · simp only []
        rw [h2]
        simp [formFileBodyPlaceholder]

theorem lines_cons_of_ne_lf (c : Char) (t : Bytes) (hc : c ≠ '\n') :
    ∃ l ls, lines t = l :: ls ∧ lines (c :: t) = (c :: l) :: ls := by
  cases hl : lines t with
  | nil => exact absurd hl (lines_ne_nil t)
  | cons l ls => exact ⟨l, ls, rfl, by simp [lines, hc, hl]⟩

/-- The first line of a text and the header lines among the lines after it do
not depend on what follows the first blank-line separator. -/
theorem lines_head_of_separator (p x y : Bytes) :
    (lines (p ++ "\r\n\r\n".toList ++ x)).head? = (lines (p ++ "\r\n\r\n".toList ++ y)).head? ∧
      (lines (p ++ "\r\n\r\n".toList ++ x)).tail.takeWhile (fun l => l != ['\r']) =
        (lines (p ++ "\r\n\r\n".toList ++ y)).tail.takeWhile (fun l => l != ['\r']) := by
  induction p with
  | nil =>
    have h : ∀ z : Bytes, ∃ l ls, lines z = l :: ls ∧
        lines ([] ++ "\r\n\r\n".toList ++ z) = ['\r'] :: ['\r'] :: l :: ls := by
      intro z
      cases hz : lines z with
      | nil => exact absurd hz (lines_ne_nil z)
      | cons l ls => exact ⟨l, ls, rfl, by simp [lines, hz]⟩
    obtain ⟨_, _, -, hx⟩ := h x
    obtain ⟨_, _, -, hy⟩ := h y
    rw [hx, hy]
    exact ⟨rfl, rfl⟩
  | cons c cs ih =>
    by_cases hc : c = '\n'
    · have e : ∀ z : Bytes, lines (c :: cs ++ "\r\n\r\n".toList ++ z) =
          [] :: lines (cs ++ "\r\n\r\n".toList ++ z) := by
        intro z
        simp [lines, hc]
      rw [e x, e y]
      refine ⟨rfl, ?_⟩
      simp only [List.tail_cons]
      obtain ⟨h1, h2⟩ := ih
      cases hx : lines (cs ++ "\r\n\r\n".toList ++ x) with
      | nil => exact absurd hx (lines_ne_nil _)
      | cons lx lsx =>
        cases hy : lines (cs ++ "\r\n\r\n".toList ++ y) with
        | nil => exact absurd hy (lines_ne_nil _)
        | cons ly lsy =>
          rw [hx, hy] at h1 h2
          simp only [List.head?_cons, Option.some.injEq, List.tail_cons] at h1 h2
          simp only [List.takeWhile_cons, h1, h2]
    · obtain ⟨lx, lsx, hx, hx'⟩ := lines_cons_of_ne_lf c (cs ++ "\r\n\r\n".toList ++ x) hc
      obtain ⟨ly, lsy, hy, hy'⟩ := lines_cons_of_ne_lf c (cs ++ "\r\n\r\n".toList ++ y) hc
      have ex : c :: cs ++ "\r\n\r\n".toList ++ x = c :: (cs ++ "\r\n\r\n".toList ++ x) := rfl
      have ey : c :: cs ++ "\r\n\r\n".toList ++ y = c :: (cs ++ "\r\n\r\n".toList ++ y) := rfl
      rw [ex, ey, hx', hy']
      obtain ⟨h1, h2⟩ := ih
      rw [hx, hy] at h1 h2
      simp only [List.head?_cons, Option.some.injEq, List.tail_cons] at h1 h2
      simp only [List.head?_cons, List.tail_cons, h1, h2, and_self]

theorem headerLines_of_separator (p x y : Bytes) :
    headerLines (p ++ "\r\n\r\n".toList ++ x) = headerLines (p ++ "\r\n\r\n".toList ++ y) := by
  obtain ⟨h1, h2⟩ := lines_head_of_separator p x y
  unfold headerLines
  cases hx : lines (p ++ "\r\n\r\n".toList ++ x) with
  | nil => exact absurd hx (lines_ne_nil _)
  | cons lx lsx =>
    cases hy : lines (p ++ "\r\n\r\n".toList ++ y) with
    | nil => exact absurd hy (lines_ne_nil _)
    | cons ly lsy =>
      rw [hx, hy] at h1 h2
      simp only [List.head?_cons, Option.some.injEq, List.tail_cons] at h1 h2
      simp only [List.takeWhile_cons, h1, h2]

/-- Changing pieces only after a blank-line separator of theirs keeps the header lines
of the joined text. -/
theorem headerLines_bytesJoin_map (f : Bytes → Bytes) (sep : Bytes)
    (hf : ∀ part, f part = part ∨
      ∃ a x y, part = a ++ "\r\n\r\n".toList ++ x ∧ f part = a ++ "\r\n\r\n".toList ++ y)
    (parts : List Bytes) (pre : Bytes) :
    headerLines (pre ++ bytesJoin (parts.map f) sep) = headerLines (pre ++ bytesJoin parts sep) := by
  induction parts generalizing pre with
  | nil => rfl
  | cons p ps ih =>
    rcases hf p with h | ⟨a, x, y, h1, h2⟩
    · cases ps with
      | nil => simp [bytesJoin, h]
      | cons q qs =>
        have := ih (pre ++ p ++ sep)
        simp only [List.map_cons, bytesJoin, h] at this ⊢
        simpa using this
    · cases ps with
      | nil =>
        simp only [List.map_cons, List.map_nil, bytesJoin]
        rw [h2, h1]
        have := headerLines_of_separator (pre ++ a) y x
        simpa using this
      | cons q qs =>
        simp only [List.map_cons, bytesJoin]
        rw [h2, h1]
        have := headerLines_of_separator (pre ++ a)
          (y ++ sep ++ bytesJoin (f q :: List.map f qs) sep) (x ++ sep ++ bytesJoin (q :: qs) sep)
        simpa using this

/-- When no line gives a boundary, `replaceFormFileBody` returns its input. -/
theorem replaceFormFileBody_of_no_boundary (text : Bytes)
    (h : findFirst expFormFieldsBoundary true text = none) : replaceFormFileBody text = text := by
  simp [replaceFormFileBody, h]

/-- The file-body substitution leaves the request line and header lines as they are. -/
theorem headerLines_replaceFormFileBody (text : Bytes) :
    headerLines (replaceFormFileBody text) = headerLines text := by
  unfold replaceFormFileBody
  cases findFirst expFormFieldsBoundary true text with
  | none => rfl
  | some boundary =>
    have := headerLines_bytesJoin_map replacePart boundary replacePart_shape
      (bytesSplit text boundary) []
    simp only [List.nil_append] at this
    simp only []
    rw [this, bytesJoin_bytesSplit]

/-! ## The token substitution and the header lines -/

theorem starts_of_starts_append_cons {a s r : Bytes} {c : Char} (h : a <+: s ++ c :: r)
    (hc : c ∉ a) : a <+: s := by
  induction s generalizing a with
  | nil =>
    cases a with
    | nil => exact List.nil_prefix
    | cons x xs =>
      obtain ⟨q, hq⟩ := h
      simp only [List.nil_append, List.cons_append, List.cons.injEq] at hq
      exact absurd (hq.1 ▸ List.mem_cons_self _ _) hc
  | cons y ys ih =>
    cases a with
    | nil => exact List.nil_prefix
    | cons x xs =>
      rw [List.cons_append, List.cons_prefix_cons] at h
      rw [List.cons_prefix_cons]
      exact ⟨h.1, ih h.2 (fun hx => hc (List.mem_cons_of_mem _ hx))⟩

/-- A line without `"token":` and the line feed after it are copied. -/
theorem replaceAll_expToken_line (l rest : Bytes) (hl : ¬ tokenKey <:+: l) :
    replaceAll expToken tokenMask (l ++ '\n' :: rest) =
      l ++ '\n' :: replaceAll expToken tokenMask rest := by
  unfold replaceAll
  induction l with
  | nil =>
    have h : expToken true ('\n' :: rest) = none := rfl
    rw [List.nil_append, replaceAllAux_no_match _ _ _ _ _ h, replaceAllAux_expToken_bol 0 _ true]
    rfl
  | cons c cs ih =>
    have hno : expToken true (c :: (cs ++ '\n' :: rest)) = none := by
      cases h : expToken true (c :: (cs ++ '\n' :: rest)) with
      | none => rfl
      | some r =>
        have hp : tokenKey <+: (c :: cs) ++ '\n' :: rest := expToken_key h
        exact absurd (starts_of_starts_append_cons hp (by decide)).isInfix hl
    show replaceAllAux expToken tokenMask 0 true (c :: (cs ++ '\n' :: rest)) = _
    rw [replaceAllAux_no_match _ _ _ _ _ hno, replaceAllAux_expToken_bol 0 _ true,
      ih (fun h => hl (h.trans (List.suffix_cons _ _).isInfix))]
    rfl

/-- When no header line holds `"token":`, the token substitution keeps the header lines. -/
theorem headerLines_replaceAll_expToken (t : Bytes)
    (ht : ∀ l ∈ headerLines t, ¬ tokenKey <:+: l) :
    headerLines (replaceAll expToken tokenMask t) = headerLines t := by
  have hcr : ¬ tokenKey <:+: ['\r'] := by
    intro h
    have := h.length_le
    simp [tokenKey] at this
  suffices h : ∀ n (t : Bytes), t.length ≤ n → (∀ l ∈ headerLines t, ¬ tokenKey <:+: l) →
      headerLines (replaceAll expToken tokenMask t) = headerLines t from h t.length t le_rfl ht
  intro n
  induction n with
  | zero =>
    intro t hlen _
    have : t = [] := List.length_eq_zero.mp (Nat.le_zero.mp hlen)
    subst this
    rfl
  | succ n ih =>
    intro t hlen ht
    obtain ⟨l, hl, h | ⟨rest, h⟩⟩ := exists_first_line t
    · subst h
      have hkey : ¬ tokenKey <:+: t := by
        by_cases hr : t = ['\r']
        · rw [hr]
          exact hcr
        · apply ht
          simp [headerLines, lines_of_no_lf _ hl, hr]
      rw [replaceAll, replaceAll_expToken_of_no_key t hkey]
    · subst h
      have hrest : rest.length ≤ n := by
        simp only [List.length_append, List.length_cons] at hlen
        omega
      by_cases hr : l = ['\r']
      · subst hr
        rw [replaceAll_expToken_line _ _ hcr]
        have e : ∀ z : Bytes, headerLines (['\r'] ++ '\n' :: z) = [] := by
          intro z
          unfold headerLines
          rw [lines_append_lf _ _ hl]
          rfl
        rw [e, e]
      · have hlines : headerLines (l ++ '\n' :: rest) = l :: headerLines rest := by
          simp [headerLines, lines_append_lf _ _ hl, hr]
        rw [hlines] at ht
        have hkey : ¬ tokenKey <:+: l := ht l (List.mem_cons_self _ _)
        rw [replaceAll_expToken_line _ _ hkey, hlines]
        have := ih rest hrest (fun l' hl' => ht l' (List.mem_cons_of_mem _ hl'))
        simp only [headerLines, lines_append_lf _ _ hl, List.takeWhile_cons] at this ⊢
        simp [hr, this]

theorem maskAuthorizationLine_eq_cr (l : Bytes) :
    (maskAuthorizationLine l != ['\r']) = (l != ['\r']) := by
  unfold maskAuthorizationLine
  cases hd : dropLit authorizationKey l with
  | none => rfl
  | some v =>
    have hlv : l = authorizationKey ++ v := dropLit_eq_some hd
    subst hlv
    have h1 : (authorizationMask != ['\r']) = true := by decide
    have h2 : (authorizationKey ++ v != ['\r']) = true := by
      simp [authorizationKey]
    simp only [h1, h2]

theorem takeWhile_map_of_eq {α : Type} (p : α → Bool) (f : α → α) (h : ∀ x, p (f x) = p x)
    (l : List α) : (l.map f).takeWhile p = (l.takeWhile p).map f := by
  induction l with
  | nil => rfl
  | cons x xs ih =>
    simp only [List.map_cons, List.takeWhile_cons, h x]
    cases p x
    · rfl
    · simp [ih]

/-- The Authorization substitution maps the header lines one by one. -/
theorem headerLines_replaceAll_expAuthorization (t : Bytes) :
    headerLines (replaceAll expAuthorization authorizationMask t) =
      (headerLines t).map maskAuthorizationLine := by
  unfold headerLines
  rw [lines_replaceAll_expAuthorization,
    takeWhile_map_of_eq _ _ maskAuthorizationLine_eq_cr]

/-! ## The cases of `TestDumpRequest`

Each case is run on the dump `httputil.DumpRequest` returns for the request the
test builds: the request line, the headers in sorted order, a blank line, the body. -/

set_option maxRecDepth 1000000 in
/-- The case `empty both` of `TestDumpRequest`. -/
theorem dumpRequest_test_empty_both :
    dumpRequest "POST"
        "POST test HTTP/1.1\r\nContent-Type: application/json\r\n\r\n".toList =
      "POST test HTTP/1.1\r\nContent-Type: application/json\r\n\r\n".toList := by
  decide!

set_option maxRecDepth 1000000 in
/-- The case `fill authorization` of `TestDumpRequest`. -/
theorem dumpRequest_test_fill_authorization :
    dumpRequest "POST"
        ("POST test HTTP/1.1\r\n" ++
          "Authorization: Legacy eyJjbGllbBiYWU0Yy1mOWEifQ==\r\n" ++
          "Content-Type: application/json\r\n\r\n").toList =
      ("POST test HTTP/1.1\r\n" ++
        "Authorization: *****\nContent-Type: application/json\r\n\r\n").toList := by
  decide!

set_option maxRecDepth 1000000 in
/-- The case `fill token` of `TestDumpRequest`. -/
theorem dumpRequest_test_fill_token :
    dumpRequest "POST"
        ("POST test HTTP/1.1\r\nContent-Type: application/json\r\n\r\n" ++
          "\x7b\"token\":\"elNGVkNz==\"\x7d").toList =
      ("POST test HTTP/1.1\r\nContent-Type: application/json\r\n\r\n" ++
        "\x7b\"token\": \"*****\"\x7d").toList := by
  decide!

set_option maxRecDepth 1000000 in
/-- The case `fill authorization and token` of `TestDumpRequest`. -/
theorem dumpRequest_test_fill_authorization_and_token :
    dumpRequest "POST"
        ("POST test HTTP/1.1\r\n" ++
          "Authorization: Legacy eyJjbGllbBiYWU0Yy1mOWEifQ==\r\n" ++
          "Content-Type: application/json\r\n\r\n\x7b\"token\":  \"elNGVkNz==\"\x7d").toList =
      ("POST test HTTP/1.1\r\n" ++
        "Authorization: *****\nContent-Type: application/json\r\n\r\n" ++
        "\x7b\"token\": \"*****\"\x7d").toList := by
  decide!

set_option maxRecDepth 1000000 in
/-- The case `value before token` of `TestDumpRequest`. -/
theorem dumpRequest_test_value_before_token :
    dumpRequest "POST"
        ("POST test HTTP/1.1\r\n" ++
          "Authorization: Legacy eyJjbGllbBiYWU0Yy1mOWEifQ==\r\n" ++
          "Content-Type: application/json\r\n\r\n" ++
          "\x7b\"device\":\"ios\",\"token\":\"elNGVkNz==\"\x7d").toList =
      ("POST test HTTP/1.1\r\n" ++
        "Authorization: *****\nContent-Type: application/json\r\n\r\n" ++
        "\x7b\"device\":\"ios\",\"token\": \"*****\"\x7d").toList := by
  decide!

set_option maxRecDepth 1000000 in
/-- The case `values before and after token` of `TestDumpRequest`. -/
theorem dumpRequest_test_values_before_and_after_token :
    dumpRequest "POST"
        ("POST test HTTP/1.1\r\n" ++
          "Authorization: Legacy eyJjbGllbBiYWU0Yy1mOWEifQ==\r\n" ++
          "Content-Type: application/json\r\n\r\n" ++
          "\x7b\"device\":\"ios\",\"token\":\"elNGVkNz==\",\"id\":123\x7d").toList =
      ("POST test HTTP/1.1\r\n" ++
        "Authorization: *****\nContent-Type: application/json\r\n\r\n" ++
        "\x7b\"device\":\"ios\",\"token\": \"*****\",\"id\":123\x7d").toList := by
  decide!

set_option maxRecDepth 1000000 in
/-- The case `multipart form without file` of `TestDumpRequest`. -/
theorem dumpRequest_test_multipart_form_without_file :
    dumpRequest "POST"
        ("POST test HTTP/1.1\r\n" ++
          "Content-Type: multipart/form-data; boundary=qlsdvhsdrvv3t3tf3g3kub3u3\r" ++
          "\n\r\n--qlsdvhsdrvv3t3tf3g3kub3u3\r\n" ++
          "Content-Disposition: form-data; name=\"image\"; filename=\"photo_test.jp" ++
          "g\"\r\nContent-Type: image/jpeg\r\n\r\n FILE BODY\r\n\r\n" ++
          " TO BE REPLACED \r\n--qlsdvhsdrvv3t3tf3g3kub3u3--").toList =
      ("POST test HTTP/1.1\r\n" ++
        "Content-Type: multipart/form-data; boundary=qlsdvhsdrvv3t3tf3g3kub3u3\r" ++
        "\n\r\n--qlsdvhsdrvv3t3tf3g3kub3u3\r\n" ++
        "Content-Disposition: form-data; name=\"image\"; filename=\"photo_test.jp" ++
        "g\"\r\nContent-Type: image/jpeg\r\n\r\n<--FILE BODY REPLACED-->\r\n" ++
        "--qlsdvhsdrvv3t3tf3g3kub3u3--").toList := by
  decide!

set_option maxRecDepth 1000000 in
/-- The case `multipart form with extra header` of `TestDumpRequest`. -/
theorem dumpRequest_test_multipart_form_with_extra_header :
    dumpRequest "POST"
        ("POST test HTTP/1.1\r\n" ++
          "Content-Type: multipart/form-data; boundary=qlsdvhsdrvv3t3tf3g3kub3u3\r" ++
          "\nX-Extra-Header: some_header_value\r\n\r\n" ++
          "--qlsdvhsdrvv3t3tf3g3kub3u3\r\n" ++
          "Content-Disposition: form-data; name=\"image\"; filename=\"photo_test.jp" ++
          "g\"\r\nContent-Type: image/jpeg\r\n\r\n" ++
          " FILE BODY\r TO BE\n REPLACED \r\n--qlsdvhsdrvv3t3tf3g3kub3u3--").toList =
      ("POST test HTTP/1.1\r\n" ++
        "Content-Type: multipart/form-data; boundary=qlsdvhsdrvv3t3tf3g3kub3u3\r" ++
        "\nX-Extra-Header: some_header_value\r\n\r\n" ++
        "--qlsdvhsdrvv3t3tf3g3kub3u3\r\n" ++
        "Content-Disposition: form-data; name=\"image\"; filename=\"photo_test.jp" ++
        "g\"\r\nContent-Type: image/jpeg\r\n\r\n<--FILE BODY REPLACED-->\r\n" ++
        "--qlsdvhsdrvv3t3tf3g3kub3u3--").toList := by
  decide!

set_option maxRecDepth 1000000 in
/-- The case `multipart form with extra header and multiple files` of `TestDumpRequest`. -/
theorem dumpRequest_test_multipart_form_with_extra_header_and_multiple_files :
    dumpRequest "POST"
        ("POST test HTTP/1.1\r\n" ++
          "Content-Type: multipart/form-data; boundary=qlsdvhsdrvv3t3tf3g3kub3u3\r" ++
          "\nX-Extra-Header: some_header_value\r\n\r\n" ++
          "--qlsdvhsdrvv3t3tf3g3kub3u3\r\n" ++
          "Content-Disposition: form-data; name=\"image\"; filename=\"photo_test.jp" ++
          "g\"\r\nContent-Type: image/jpeg\r\n\r\n" ++
          " FILE BODY\r TO BE\n REPLACED \r\n--qlsdvhsdrvv3t3tf3g3kub3u3\r\n" ++
          "Content-Disposition: form-data; name=\"image\"; filename=\"photo_test2.j" ++
          "pg\"\r\nContent-Type: image/jpeg\r\n\r\n FILE BODY\r\n TO BE\r\n" ++
          " REPLACED \r\n--qlsdvhsdrvv3t3tf3g3kub3u3--").toList =
      ("POST test HTTP/1.1\r\n" ++
        "Content-Type: multipart/form-data; boundary=qlsdvhsdrvv3t3tf3g3kub3u3\r" ++
        "\nX-Extra-Header: some_header_value\r\n\r\n" ++
        "--qlsdvhsdrvv3t3tf3g3kub3u3\r\n" ++
        "Content-Disposition: form-data; name=\"image\"; filename=\"photo_test.jp" ++
        "g\"\r\nContent-Type: image/jpeg\r\n\r\n<--FILE BODY REPLACED-->\r\n" ++
        "--qlsdvhsdrvv3t3tf3g3kub3u3\r\n" ++
        "Content-Disposition: form-data; name=\"image\"; filename=\"photo_test2.j" ++
        "pg\"\r\nContent-Type: image/jpeg\r\n\r\n<--FILE BODY REPLACED-->\r\n" ++
        "--qlsdvhsdrvv3t3tf3g3kub3u3--").toList := by
  decide!

set_option maxRecDepth 1000000 in
/-- The case `multipart form with extra header and empty files` of `TestDumpRequest`. -/
theorem dumpRequest_test_multipart_form_with_extra_header_and_empty_files :
    dumpRequest "POST"
        ("POST test HTTP/1.1\r\n" ++
          "Content-Type: multipart/form-data; boundary=qlsdvhsdrvv3t3tf3g3kub3u3\r" ++
          "\nX-Extra-Header: some_header_value\r\n\r\n" ++
          "--qlsdvhsdrvv3t3tf3g3kub3u3\r\n" ++
          "Content-Disposition: form-data; name=\"image\"; filename=\"photo_test.jp" ++
          "g\"\r\nContent-Type: image/jpeg\r\n\r\n" ++
          " FILE BODY\r TO BE\n REPLACED \r\n--qlsdvhsdrvv3t3tf3g3kub3u3\r\n" ++
          "Content-Disposition: form-data; name=\"image\"; filename=\"photo_test2.j" ++
          "pg\"\r\nContent-Type: image/jpeg\r\n\r\n\r\n" ++
          "--qlsdvhsdrvv3t3tf3g3kub3u3--").toList =
      ("POST test HTTP/1.1\r\n" ++
        "Content-Type: multipart/form-data; boundary=qlsdvhsdrvv3t3tf3g3kub3u3\r" ++
        "\nX-Extra-Header: some_header_value\r\n\r\n" ++
        "--qlsdvhsdrvv3t3tf3g3kub3u3\r\n" ++
        "Content-Disposition: form-data; name=\"image\"; filename=\"photo_test.jp" ++
        "g\"\r\nContent-Type: image/jpeg\r\n\r\n<--FILE BODY REPLACED-->\r\n" ++
        "--qlsdvhsdrvv3t3tf3g3kub3u3\r\n" ++
        "Content-Disposition: form-data; name=\"image\"; filename=\"photo_test2.j" ++
        "pg\"\r\nContent-Type: image/jpeg\r\n\r\n<--FILE BODY REPLACED-->\r\n" ++
        "--qlsdvhsdrvv3t3tf3g3kub3u3--").toList := by
  decide!

/-! ## The redacting dumper -/

set_option maxRecDepth 1000000 in
/-- C1, at a file whose content has a line starting with `--`: the upload
`notes.sql` holds the two lines `SELECT 1;` and `-- password: hunter2`, separated by
CRLF. `replaceFormFileBody` (and so `dumpRequest`) replaces the body only up to the
first CRLF `--`: the second line of the file stays in the output, which is not the
dump with the whole body region replaced. -/
theorem replaceFormFileBody_leaks_after_dashes :
    replaceFormFileBody
        (("POST /upload HTTP/1.1\r\nHost: example.com\r\n" ++
          "Content-Type: multipart/form-data; boundary=XYZ\r\n\r\n--XYZ\r\n" ++
          "Content-Disposition: form-data; name=\"file\"; filename=\"notes.sql\"\r\n" ++
          "Content-Type: text/plain\r\n\r\n").toList ++
          "SELECT 1;\r\n-- password: hunter2".toList ++ "\r\n--XYZ--\r\n".toList) =
      ("POST /upload HTTP/1.1\r\nHost: example.com\r\n" ++
        "Content-Type: multipart/form-data; boundary=XYZ\r\n\r\n--XYZ\r\n" ++
        "Content-Disposition: form-data; name=\"file\"; filename=\"notes.sql\"\r\n" ++
        "Content-Type: text/plain\r\n\r\n").toList ++
        "<--FILE BODY REPLACED-->\r\n-- password: hunter2".toList ++ "\r\n--XYZ--\r\n".toList ∧
    dumpRequest "POST"
        (("POST /upload HTTP/1.1\r\nHost: example.com\r\n" ++
          "Content-Type: multipart/form-data; boundary=XYZ\r\n\r\n--XYZ\r\n" ++
          "Content-Disposition: form-data; name=\"file\"; filename=\"notes.sql\"\r\n" ++
          "Content-Type: text/plain\r\n\r\n").toList ++
          "SELECT 1;\r\n-- password: hunter2".toList ++ "\r\n--XYZ--\r\n".toList) =
      ("POST /upload HTTP/1.1\r\nHost: example.com\r\n" ++
        "Content-Type: multipart/form-data; boundary=XYZ\r\n\r\n--XYZ\r\n" ++
        "Content-Disposition: form-data; name=\"file\"; filename=\"notes.sql\"\r\n" ++
        "Content-Type: text/plain\r\n\r\n").toList ++
        "<--FILE BODY REPLACED-->\r\n-- password: hunter2".toList ++ "\r\n--XYZ--\r\n".toList ∧
    dumpRequest "POST"
        (("POST /upload HTTP/1.1\r\nHost: example.com\r\n" ++
          "Content-Type: multipart/form-data; boundary=XYZ\r\n\r\n--XYZ\r\n" ++
          "Content-Disposition: form-data; name=\"file\"; filename=\"notes.sql\"\r\n" ++
          "Content-Type: text/plain\r\n\r\n").toList ++
          "SELECT 1;\r\n-- password: hunter2".toList ++ "\r\n--XYZ--\r\n".toList) ≠
      ("POST /upload HTTP/1.1\r\nHost: example.com\r\n" ++
        "Content-Type: multipart/form-data; boundary=XYZ\r\n\r\n--XYZ\r\n" ++
        "Content-Disposition: form-data; name=\"file\"; filename=\"notes.sql\"\r\n" ++
        "Content-Type: text/plain\r\n\r\n").toList ++
        "<--FILE BODY REPLACED-->".toList ++ "\r\n--XYZ--\r\n".toList := by
  decide!

set_option maxRecDepth 1000000 in
/-- C2 fails as stated, twice on one request: white space before the colon keeps the
field out of reach of the pattern, so the token stays in the output; and the
bytes before the field are not those of the input dump, the Authorization line
having been masked. -/
theorem dumpRequest_token_counterexample :
    dumpRequest "POST"
        (("POST /login HTTP/1.1\r\nHost: example.com\r\nAuthorization: Bearer abc\r\n" ++
          "Content-Type: application/json\r\n\r\n\x7b").toList ++
          "\"token\" :\"s3cret\"".toList ++ "\x7d".toList) =
      ("POST /login HTTP/1.1\r\nHost: example.com\r\nAuthorization: *****\n" ++
        "Content-Type: application/json\r\n\r\n\x7b").toList ++
        "\"token\" :\"s3cret\"".toList ++ "\x7d".toList ∧
    dumpRequest "POST"
        (("POST /login HTTP/1.1\r\nHost: example.com\r\nAuthorization: Bearer abc\r\n" ++
          "Content-Type: application/json\r\n\r\n\x7b").toList ++
          "\"token\" :\"s3cret\"".toList ++ "\x7d".toList) ≠
      ("POST /login HTTP/1.1\r\nHost: example.com\r\nAuthorization: Bearer abc\r\n" ++
        "Content-Type: application/json\r\n\r\n\x7b").toList ++
        tokenMask ++ "\x7d".toList := by
  decide!

/-- C2 amended: let the dump, after the file-body substitution (for POST) and the
Authorization substitution, read `pre`, then a field `"token":`, white space, `"`,
a value `X` without `"` or line feed, `"`, then `post`, with no `"token":` in `pre`.
Then the output is `pre`, the mask `"token": "*****"`, and `post` with its own
token fields masked; it is `pre`, the mask and `post` when `post` holds no
`"token":`. -/
theorem dumpRequest_token (method : String) (dump pre ws X post : Bytes)
    (hdump : replaceAll expAuthorization authorizationMask
      (if method = "POST" then replaceFormFileBody dump else dump) =
        pre ++ (tokenKey ++ ws ++ '"' :: X ++ ['"']) ++ post)
    (hpre : ¬ tokenKey <:+: pre) (hws : ∀ c ∈ ws, space c = true)
    (hq : '"' ∉ X) (hn : '\n' ∉ X) :
    dumpRequest method dump = pre ++ tokenMask ++ replaceAll expToken tokenMask post ∧
      (¬ tokenKey <:+: post → dumpRequest method dump = pre ++ tokenMask ++ post) := by
  have h : dumpRequest method dump =
      pre ++ tokenMask ++ replaceAll expToken tokenMask post := by
    show replaceAll expToken tokenMask (replaceAll expAuthorization authorizationMask
      (if method = "POST" then replaceFormFileBody dump else dump)) = _
    rw [hdump]
    exact replaceAll_expToken_first pre ws X post hpre hws hq hn
  refine ⟨h, fun hpost => ?_⟩
  rw [h, replaceAll, replaceAll_expToken_of_no_key post hpost]

set_option maxRecDepth 1000000 in
/-- Witness of C2 amended: a JSON body with fields before and after the token, two
blanks after the colon, and an Authorization header. -/
theorem dumpRequest_token_witness :
    dumpRequest "POST"
        ("POST test HTTP/1.1\r\nAuthorization: Legacy eyJjbGllbBiYWU0Yy1mOWEifQ==\r\n" ++
          "Content-Type: application/json\r\n\r\n" ++
          "\x7b\"device\":\"ios\",\"token\":  \"elNGVkNz==\",\"id\":123\x7d").toList =
      ("POST test HTTP/1.1\r\nAuthorization: *****\n" ++
          "Content-Type: application/json\r\n\r\n\x7b\"device\":\"ios\",").toList ++
        tokenMask ++ ",\"id\":123\x7d".toList :=
  (dumpRequest_token "POST" _
    ("POST test HTTP/1.1\r\nAuthorization: *****\n" ++
      "Content-Type: application/json\r\n\r\n\x7b\"device\":\"ios\",").toList
    "  ".toList "elNGVkNz==".toList ",\"id\":123\x7d".toList
    (by decide!) (by decide!) (by decide) (by decide) (by decide)).2 (by decide!)

set_option maxRecDepth 1000000 in
/-- C3 fails as stated when another header holds a token field: the line
`X-Meta` of the output is not the line of the input. -/
theorem dumpRequest_headerLines_counterexample :
    dumpRequest "GET"
        ("GET /me HTTP/1.1\r\nHost: example.com\r\nAuthorization: Bearer abc\r\n" ++
          "X-Meta: \x7b\"token\":\"abc\"\x7d\r\n\r\n").toList =
      ("GET /me HTTP/1.1\r\nHost: example.com\r\nAuthorization: *****\n" ++
        "X-Meta: \x7b\"token\": \"*****\"\x7d\r\n\r\n").toList ∧
    headerLines (dumpRequest "GET"
        ("GET /me HTTP/1.1\r\nHost: example.com\r\nAuthorization: Bearer abc\r\n" ++
          "X-Meta: \x7b\"token\":\"abc\"\x7d\r\n\r\n").toList) ≠
      (headerLines
        ("GET /me HTTP/1.1\r\nHost: example.com\r\nAuthorization: Bearer abc\r\n" ++
          "X-Meta: \x7b\"token\":\"abc\"\x7d\r\n\r\n").toList).map maskAuthorizationLine := by
  decide!

/-- C3 amended: when no line of the dump before its first blank line holds
`"token":`, the lines of the output before its first blank line are those of the
dump, each line that starts with `Authorization:` replaced by `Authorization: *****`
(the carriage return at its end included) and every other line byte for byte the same. -/
theorem dumpRequest_headerLines (method : String) (dump : Bytes)
    (hno : ∀ l ∈ headerLines dump, ¬ tokenKey <:+: l) :
    headerLines (dumpRequest method dump) = (headerLines dump).map maskAuthorizationLine ∧
      (∀ l, authorizationKey <+: l → maskAuthorizationLine l = authorizationMask) ∧
      (∀ l, ¬ authorizationKey <+: l → maskAuthorizationLine l = l) := by
  refine ⟨?_, ?_, ?_⟩
  · have h1 : headerLines (if method = "POST" then replaceFormFileBody dump else dump) =
        headerLines dump := by
      split
      · exact headerLines_replaceFormFileBody dump
      · rfl
    have h2 := headerLines_replaceAll_expAuthorization
      (if method = "POST" then replaceFormFileBody dump else dump)
    rw [h1] at h2
    show headerLines (replaceAll expToken tokenMask (replaceAll expAuthorization
      authorizationMask (if method = "POST" then replaceFormFileBody dump else dump))) = _
    rw [headerLines_replaceAll_expToken, h2]
    intro l hl
    rw [h2, List.mem_map] at hl
    obtain ⟨l0, hl0, rfl⟩ := hl
    unfold maskAuthorizationLine
    split
    · intro h
      have : '"' ∈ authorizationMask := h.subset (by decide)
      revert this
      decide
    · exact hno l0 hl0
  · rintro l ⟨v, rfl⟩
    simp [maskAuthorizationLine, dropLit_append]
  · intro l hl
    simp [maskAuthorizationLine, dropLit_eq_none_of_not_start hl]

set_option maxRecDepth 1000000 in
/-- Witness of C3 amended: a multipart upload with an Authorization header. -/
theorem dumpRequest_headerLines_witness :
    headerLines (dumpRequest "POST"
        ("POST /upload HTTP/1.1\r\nHost: example.com\r\nAuthorization: Bearer abc\r\n" ++
          "Content-Type: multipart/form-data; boundary=XYZ\r\n\r\n--XYZ\r\n" ++
          "Content-Disposition: form-data; name=\"file\"; filename=\"a.txt\"\r\n" ++
          "Content-Type: text/plain\r\n\r\nhello\r\n--XYZ--\r\n").toList) =
      ["POST /upload HTTP/1.1\r".toList, "Host: example.com\r".toList,
        "Authorization: *****".toList,
        "Content-Type: multipart/form-data; boundary=XYZ\r".toList] :=
  (dumpRequest_headerLines "POST"
    ("POST /upload HTTP/1.1\r\nHost: example.com\r\nAuthorization: Bearer abc\r\n" ++
      "Content-Type: multipart/form-data; boundary=XYZ\r\n\r\n--XYZ\r\n" ++
      "Content-Disposition: form-data; name=\"file\"; filename=\"a.txt\"\r\n" ++
      "Content-Type: text/plain\r\n\r\nhello\r\n--XYZ--\r\n").toList (by decide!)).1.trans
    (by decide!)

/-! ## Failure-classification strategies -/

/-- C4: `StrategyErrorOne.setError` reports unhealthy exactly when some result has
`Status == false`; on the empty list it reports healthy. -/
theorem StrategyErrorOne_setError_iff (checks : List CheckerResult) :
    (StrategyErrorOne.setError checks = true ↔ ∃ check ∈ checks, check.Status = false) ∧
      StrategyErrorOne.setError [] = false := by
  refine ⟨?_, rfl⟩
  induction checks with
  | nil => simp [StrategyErrorOne.setError]
  | cons check checks ih =>
    cases hs : check.Status <;> simp [StrategyErrorOne.setError, hs, ih]

/-- C5: `StrategyErrorAll.setError` reports unhealthy exactly when every result has
`Status == false`; on the empty list it reports unhealthy. -/
theorem StrategyErrorAll_setError_iff (checks : List CheckerResult) :
    (StrategyErrorAll.setError checks = true ↔ ∀ check ∈ checks, check.Status = false) ∧
      StrategyErrorAll.setError [] = true := by
  refine ⟨?_, rfl⟩
  induction checks with
  | nil => simp [StrategyErrorAll.setError]
  | cons check checks ih =>
    cases hs : check.Status <;> simp [StrategyErrorAll.setError, hs, ih]

/-! ## Healthcheck aggregation -/

/-- Registering probes one after the other appends them in that order. -/
theorem checkers_foldl_AddChecker (probes : List Checker) (h : Healthcheck) :
    (probes.foldl Healthcheck.AddChecker h).checkers = h.checkers ++ probes := by
  induction probes generalizing h with
  | nil => simp
  | cons c cs ih => simp [List.foldl_cons, ih, Healthcheck.AddChecker]

/-- Registering probes leaves the other fields alone. -/
theorem fields_foldl_AddChecker (probes : List Checker) (h : Healthcheck) :
    (probes.foldl Healthcheck.AddChecker h).Strategy = h.Strategy ∧
      (probes.foldl Healthcheck.AddChecker h).Version = h.Version ∧
      (probes.foldl Healthcheck.AddChecker h).ServerName = h.ServerName ∧
      (probes.foldl Healthcheck.AddChecker h).AppName = h.AppName := by
  induction probes generalizing h with
  | nil => simp
  | cons c cs ih => simp [List.foldl_cons, ih, Healthcheck.AddChecker]

/-- When every probe returns, the loop of `Check` returns their results in order. -/
theorem runCheckers_of_results (probes : List Checker) (results : List CheckerResult)
    (hres : probes.map (fun c => c ()) = results.map some) :
    runCheckers probes = some results := by
  induction probes generalizing results with
  | nil =>
    cases results with
    | nil => rfl
    | cons r rs => simp at hres
  | cons c cs ih =>
    cases results with
    | nil => simp at hres
    | cons r rs =>
      simp only [List.map_cons, List.cons.injEq] at hres
      simp [runCheckers, hres.1, ih rs hres.2]

/-- A probe that panics makes the loop of `Check` panic, whatever the others do. -/
theorem runCheckers_of_panic (before after : List Checker) (c : Checker) (hc : c () = none) :
    runCheckers (before ++ c :: after) = none := by
  induction before with
  | nil => simp [runCheckers, hc]
  | cons b bs ih =>
    rw [List.cons_append, runCheckers, ih]
    cases b () <;> rfl

/-- What `Check` returns once the probes have returned `results`. -/
theorem Check_of_results (marshal : Summary → Except String Bytes) (h : Healthcheck)
    (strategy : StrategyError) (results : List CheckerResult)
    (hs : h.Strategy = some strategy) (hrun : runCheckers h.checkers = some results) :
    h.Check marshal =
      some (match marshal (h.result results) with
        | .ok jsn => (jsn, strategy.setError results, none)
        | .error err => ([], strategy.setError results, some err)) := by
  simp only [Healthcheck.Check, hrun, hs]
  cases marshal (h.result results) <;> rfl

/-- C6: after registering `probes` on a `Healthcheck` without probes, `Check`
serializes a map that has the key `checkResultList` exactly when `probes` is not
empty, and the value under that key is the list of the probes' results, one per
probe, in registration order. -/
theorem Check_checkResultList (marshal : Summary → Except String Bytes) (h : Healthcheck)
    (strategy : StrategyError) (probes : List Checker) (results : List CheckerResult)
    (hfresh : h.checkers = []) (hs : h.Strategy = some strategy)
    (hres : probes.map (fun c => c ()) = results.map some) :
    ∃ summary : Summary,
      (probes.foldl Healthcheck.AddChecker h).Check marshal =
        some (match marshal summary with
          | .ok jsn => (jsn, strategy.setError results, none)
          | .error err => ([], strategy.setError results, some err)) ∧
      ("checkResultList" ∈ summary.map Prod.fst ↔ probes ≠ []) ∧
      (probes ≠ [] → summary.lookup "checkResultList" = some (.checks results)) ∧
      results.length = probes.length := by
  have hlen : results.length = probes.length := by
    have := congrArg List.length hres
    simpa using this.symm
  refine ⟨(probes.foldl Healthcheck.AddChecker h).result results, ?_, ?_, ?_, hlen⟩
  · apply Check_of_results
    · rw [(fields_foldl_AddChecker probes h).1, hs]
    · rw [checkers_foldl_AddChecker, hfresh, List.nil_append]
      exact runCheckers_of_results probes results hres
  · cases results with
    | nil =>
      have : probes = [] := List.length_eq_zero.mp (by simpa using hlen.symm)
      subst this
      simp [Healthcheck.result]
    | cons r rs =>
      have : probes ≠ [] := by
        intro hp
        subst hp
        simp at hlen
      simp [Healthcheck.result, this]
  · intro hne
    cases results with
    | nil =>
      exact absurd (List.length_eq_zero.mp (by simpa using hlen.symm)) hne
    | cons r rs =>
      simp [Healthcheck.result, List.lookup]

/-- Witness of C6: two probes registered on an empty `Healthcheck`. -/
theorem Check_checkResultList_witness :
    ∃ summary : Summary,
      ([(fun _ => some ⟨"db", true⟩ : Checker), (fun _ => some ⟨"cache", false⟩)].foldl
          Healthcheck.AddChecker ⟨"1.0", "srv", "app", some .StrategyErrorOne, []⟩).Check
          marshalPlain =
        some (match marshalPlain summary with
          | .ok jsn => (jsn, StrategyError.StrategyErrorOne.setError
              [⟨"db", true⟩, ⟨"cache", false⟩], none)
          | .error err => ([], StrategyError.StrategyErrorOne.setError
              [⟨"db", true⟩, ⟨"cache", false⟩], some err)) ∧
      ("checkResultList" ∈ summary.map Prod.fst ↔
        [(fun _ => some ⟨"db", true⟩ : Checker), (fun _ => some ⟨"cache", false⟩)] ≠ []) ∧
      ([(fun _ => some ⟨"db", true⟩ : Checker), (fun _ => some ⟨"cache", false⟩)] ≠ [] →
        summary.lookup "checkResultList" = some (.checks [⟨"db", true⟩, ⟨"cache", false⟩])) ∧
      [(⟨"db", true⟩ : CheckerResult), ⟨"cache", false⟩].length =
        [(fun _ => some ⟨"db", true⟩ : Checker), (fun _ => some ⟨"cache", false⟩)].length :=
  Check_checkResultList marshalPlain ⟨"1.0", "srv", "app", some .StrategyErrorOne, []⟩
    .StrategyErrorOne [fun _ => some ⟨"db", true⟩, fun _ => some ⟨"cache", false⟩]
    [⟨"db", true⟩, ⟨"cache", false⟩] rfl rfl rfl

/-- C7: the handler runs `Check` with `StrategyErrorOne` when no strategy is set
(and with the configured one otherwise); given the triple `Check` reports, it
answers 500 exactly when `hasProblem` is true or the error is not nil, and 200
otherwise, and writes `Check`'s JSON when the error is nil, else the error's text. -/
theorem Handler_response (marshal : Summary → Except String Bytes) (hc : Healthcheck)
    (res : Bytes) (hasProblem : Bool) (err : Option String)
    (hcheck : Healthcheck.Check marshal
      { hc with Strategy := some (hc.Strategy.getD .StrategyErrorOne) } =
        some (res, hasProblem, err)) :
    ∃ (status : Int) (body : Bytes),
      (Handler marshal hc).map Prod.snd =
        some [contentTypeCall, .writeHeader status, .write body] ∧
      (Handler marshal hc).map (fun r => r.1.Strategy) =
        some (some (hc.Strategy.getD .StrategyErrorOne)) ∧
      (status = 500 ↔ (hasProblem = true ∨ err ≠ none)) ∧
      (status = 200 ↔ ¬ (hasProblem = true ∨ err ≠ none)) ∧
      (err = none → body = res) ∧
      (∀ e, err = some e → body = e.toList) := by
  have hhc : (if hc.Strategy = none then { hc with Strategy := some .StrategyErrorOne } else hc) =
      { hc with Strategy := some (hc.Strategy.getD .StrategyErrorOne) } := by
    cases hst : hc.Strategy with
    | none => simp
    | some st =>
      cases hc
      simp_all
  have hrun : Handler marshal hc =
      some ({ hc with Strategy := some (hc.Strategy.getD .StrategyErrorOne) },
        [contentTypeCall,
          .writeHeader (if hasProblem == true || err != none then 500 else 200),
          .write (err.elim res String.toList)]) := by
    simp only [Handler, hhc, hcheck, contentTypeCall]
    cases err <;> rfl
  refine ⟨if hasProblem == true || err != none then 500 else 200,
    err.elim res String.toList, ?_, ?_, ?_, ?_, ?_, ?_⟩
  · rw [hrun]
    rfl
  · rw [hrun]
    rfl
  · cases hasProblem <;> cases err <;> simp
  · cases hasProblem <;> cases err <;> simp
  · intro h
    subst h
    rfl
  · intro e h
    subst h
    rfl

set_option maxRecDepth 1000000 in
/-- Witness of C7: probes `db` (passes) and `cache` (fails), no strategy set: the
handler answers 500 and writes the JSON of `Check`. -/
theorem Handler_response_witness :
    (Handler marshalPlain ⟨"1.0", "srv", "app", none,
        [fun _ => some ⟨"db", true⟩, fun _ => some ⟨"cache", false⟩]⟩).map Prod.snd =
      some [contentTypeCall, .writeHeader 500,
        .write ("\x7b\"application\":\"app\",\"checkResultList\":[\x7b\"service\":\"db\"," ++
          "\"status\":true\x7d,\x7b\"service\":\"cache\",\"status\":false\x7d]," ++
          "\"server\":\"srv\",\"version\":\"1.0\"\x7d").toList] := by
  obtain ⟨status, body, h1, -, h3, -, h5, -⟩ :=
    Handler_response marshalPlain ⟨"1.0", "srv", "app", none,
        [fun _ => some ⟨"db", true⟩, fun _ => some ⟨"cache", false⟩]⟩
      ("\x7b\"application\":\"app\",\"checkResultList\":[\x7b\"service\":\"db\"," ++
        "\"status\":true\x7d,\x7b\"service\":\"cache\",\"status\":false\x7d]," ++
        "\"server\":\"srv\",\"version\":\"1.0\"\x7d").toList true none (by decide)
  rw [h1, h3.mpr (Or.inl rfl), h5 rfl]

/-- C8, as the code has it: a probe whose call panics is not caught, `Check`
panics with it and the results of the other probes are lost. Here the second of
three probes is a `DbChecker` on a nil `db`. -/
theorem Check_probe_panic_aborts :
    Healthcheck.Check marshalPlain ⟨"1.0", "srv", "app", some .StrategyErrorOne,
      [DbChecker "db" (some none), DbChecker "replica" none, DbChecker "cache" (some none)]⟩ =
      none := by
  decide

/-- C8 amended: when every probe call returns, `Check` returns, and the list it
serializes holds one result per probe in order; a `DbChecker` whose ping returns an
error contributes `Status == false` under its name, and the results of the probes
before and after it are kept. -/
theorem Check_collects_results (marshal : Summary → Except String Bytes) (h : Healthcheck)
    (strategy : StrategyError) (before after : List Checker)
    (resultsBefore resultsAfter : List CheckerResult) (name pingError : String)
    (hs : h.Strategy = some strategy)
    (hprobes : h.checkers = before ++ DbChecker name (some (some pingError)) :: after)
    (hbefore : before.map (fun c => c ()) = resultsBefore.map some)
    (hafter : after.map (fun c => c ()) = resultsAfter.map some) :
    ∃ (jsn : Bytes) (err : Option String),
      h.Check marshal = some (jsn,
        strategy.setError (resultsBefore ++ ⟨name, false⟩ :: resultsAfter), err) ∧
      (h.result (resultsBefore ++ ⟨name, false⟩ :: resultsAfter)).lookup "checkResultList" =
        some (.checks (resultsBefore ++ ⟨name, false⟩ :: resultsAfter)) ∧
      marshal (h.result (resultsBefore ++ ⟨name, false⟩ :: resultsAfter)) =
        (match err with
          | none => .ok jsn
          | some e => .error e) := by
  have hrun : runCheckers h.checkers =
      some (resultsBefore ++ ⟨name, false⟩ :: resultsAfter) := by
    rw [hprobes]
    apply runCheckers_of_results
    simp [hbefore, hafter, DbChecker]
  have hcheck := Check_of_results marshal h strategy _ hs hrun
  cases hm : marshal (h.result (resultsBefore ++ ⟨name, false⟩ :: resultsAfter)) with
  | ok jsn =>
    refine ⟨jsn, none, ?_, ?_, rfl⟩
    · rw [hcheck, hm]
    · simp [Healthcheck.result, List.lookup]
  | error e =>
    refine ⟨[], some e, ?_, ?_, rfl⟩
    · rw [hcheck, hm]
    · simp [Healthcheck.result, List.lookup]

/-- Witness of C8 amended: a failing `DbChecker` between two passing probes. -/
theorem Check_collects_results_witness :
    ∃ (jsn : Bytes) (err : Option String),
      Healthcheck.Check marshalPlain ⟨"1.0", "srv", "app", some .StrategyErrorOne,
        [DbChecker "db" (some none)] ++
          DbChecker "replica" (some (some "connection refused")) ::
          [DbChecker "cache" (some none)]⟩ =
        some (jsn, StrategyError.StrategyErrorOne.setError
          ([⟨"db", true⟩] ++ ⟨"replica", false⟩ :: [⟨"cache", true⟩]), err) ∧
      (Healthcheck.result ⟨"1.0", "srv", "app", some .StrategyErrorOne,
        [DbChecker "db" (some none)] ++
          DbChecker "replica" (some (some "connection refused")) ::
          [DbChecker "cache" (some none)]⟩
        ([⟨"db", true⟩] ++ ⟨"replica", false⟩ :: [⟨"cache", true⟩])).lookup "checkResultList" =
        some (.checks ([⟨"db", true⟩] ++ ⟨"replica", false⟩ :: [⟨"cache", true⟩])) ∧
      marshalPlain (Healthcheck.result ⟨"1.0", "srv", "app", some .StrategyErrorOne,
        [DbChecker "db" (some none)] ++
          DbChecker "replica" (some (some "connection refused")) ::
          [DbChecker "cache" (some none)]⟩
        ([⟨"db", true⟩] ++ ⟨"replica", false⟩ :: [⟨"cache", true⟩])) =
        (match err with
          | none => .ok jsn
          | some e => .error e) :=
  Check_collects_results marshalPlain _ .StrategyErrorOne [DbChecker "db" (some none)]
    [DbChecker "cache" (some none)] [⟨"db", true⟩] [⟨"cache", true⟩] "replica"
    "connection refused" rfl rfl rfl rfl

/-- C9: with `StrategyErrorIgnore` set and every probe returning, `Check` reports
`hasProblem == false`, and (the serializer returning `jsn` for the map) the handler
answers 200 with body `jsn`, the body it also writes for the same probes when no
strategy is set. -/
theorem Handler_ignore (marshal : Summary → Except String Bytes) (hc : Healthcheck)
    (results : List CheckerResult) (jsn : Bytes)
    (hrun : runCheckers hc.checkers = some results)
    (hok : marshal (hc.result results) = .ok jsn) :
    Healthcheck.Check marshal { hc with Strategy := some .StrategyErrorIgnore } =
        some (jsn, false, none) ∧
      (Handler marshal { hc with Strategy := some .StrategyErrorIgnore }).map Prod.snd =
        some [contentTypeCall, .writeHeader 200, .write jsn] ∧
      ∃ status : Int, (Handler marshal { hc with Strategy := none }).map Prod.snd =
        some [contentTypeCall, .writeHeader status, .write jsn] := by
  have hres : ∀ st : Option StrategyError,
      Healthcheck.result { hc with Strategy := st } results = hc.result results := fun _ => rfl
  have h1 : Healthcheck.Check marshal { hc with Strategy := some .StrategyErrorIgnore } =
      some (jsn, false, none) := by
    rw [Check_of_results marshal { hc with Strategy := some .StrategyErrorIgnore }
      .StrategyErrorIgnore results rfl hrun, hres, hok]
    rfl
  have h2 : Healthcheck.Check marshal { hc with Strategy := some .StrategyErrorOne } =
      some (jsn, StrategyErrorOne.setError results, none) := by
    rw [Check_of_results marshal { hc with Strategy := some .StrategyErrorOne }
      .StrategyErrorOne results rfl hrun, hres, hok]
    rfl
  refine ⟨h1, ?_, if StrategyErrorOne.setError results then 500 else 200, ?_⟩
  · simp only [Handler]
    rw [if_neg (by simp), h1]
    rfl
  · simp only [Handler, if_true]
    rw [h2]
    cases StrategyErrorOne.setError results <;> rfl

/-- Witness of C9: probes `db` (passes) and `cache` (fails). -/
theorem Handler_ignore_witness :
    Healthcheck.Check marshalPlain ⟨"1.0", "srv", "app", some .StrategyErrorIgnore,
        [fun _ => some ⟨"db", true⟩, fun _ => some ⟨"cache", false⟩]⟩ =
        some (("\x7b\"application\":\"app\",\"checkResultList\":[\x7b\"service\":\"db\"," ++
          "\"status\":true\x7d,\x7b\"service\":\"cache\",\"status\":false\x7d]," ++
          "\"server\":\"srv\",\"version\":\"1.0\"\x7d").toList, false, none) ∧
      (Handler marshalPlain ⟨"1.0", "srv", "app", some .StrategyErrorIgnore,
        [fun _ => some ⟨"db", true⟩, fun _ => some ⟨"cache", false⟩]⟩).map Prod.snd =
        some [contentTypeCall, .writeHeader 200,
          .write ("\x7b\"application\":\"app\",\"checkResultList\":[\x7b\"service\":\"db\"," ++
            "\"status\":true\x7d,\x7b\"service\":\"cache\",\"status\":false\x7d]," ++
            "\"server\":\"srv\",\"version\":\"1.0\"\x7d").toList] ∧
      ∃ status : Int, (Handler marshalPlain ⟨"1.0", "srv", "app", none,
        [fun _ => some ⟨"db", true⟩, fun _ => some ⟨"cache", false⟩]⟩).map Prod.snd =
        some [contentTypeCall, .writeHeader status,
          .write ("\x7b\"application\":\"app\",\"checkResultList\":[\x7b\"service\":\"db\"," ++
            "\"status\":true\x7d,\x7b\"service\":\"cache\",\"status\":false\x7d]," ++
            "\"server\":\"srv\",\"version\":\"1.0\"\x7d").toList] :=
  Handler_ignore marshalPlain ⟨"1.0", "srv", "app", some .StrategyErrorOne,
      [fun _ => some ⟨"db", true⟩, fun _ => some ⟨"cache", false⟩]⟩
    [⟨"db", true⟩, ⟨"cache", false⟩] _ rfl rfl

/-! ## Response observers -/

/-- A run of `Write` calls on the wrapper drives the sink as the same calls made
on the sink do, returns the sink's results, and keeps `StatusCode`. -/
theorem writeAll_wrapped {σ : Type} (w : ResponseWriter σ) (chunks : List Bytes)
    (lrw : LoggingResponseWriter σ) :
    (LoggingResponseWriter.writeAll w lrw chunks).1.wrapped =
        (ResponseWriter.writeAll w lrw.wrapped chunks).1 ∧
      (LoggingResponseWriter.writeAll w lrw chunks).2 =
        (ResponseWriter.writeAll w lrw.wrapped chunks).2 ∧
      (LoggingResponseWriter.writeAll w lrw chunks).1.StatusCode = lrw.StatusCode := by
  induction chunks generalizing lrw with
  | nil => exact ⟨rfl, rfl, rfl⟩
  | cons c cs ih =>
    obtain ⟨h1, h2, h3⟩ := ih (lrw.Write w c).1
    refine ⟨?_, ?_, ?_⟩
    · simpa [LoggingResponseWriter.writeAll, ResponseWriter.writeAll,
        LoggingResponseWriter.Write] using h1
    · simpa [LoggingResponseWriter.writeAll, ResponseWriter.writeAll,
        LoggingResponseWriter.Write] using h2
    · simpa [LoggingResponseWriter.writeAll, LoggingResponseWriter.Write] using h3

/-- After a non-empty run of `Write` calls, `Content` is the last chunk. -/
theorem writeAll_Content {σ : Type} (w : ResponseWriter σ) (chunks : List Bytes)
    (hne : chunks ≠ []) (lrw : LoggingResponseWriter σ) :
    (LoggingResponseWriter.writeAll w lrw chunks).1.Content = chunks.getLast hne := by
  induction chunks generalizing lrw with
  | nil => exact absurd rfl hne
  | cons c cs ih =>
    cases cs with
    | nil => rfl
    | cons d ds =>
      have := ih (by simp) (lrw.Write w c).1
      simpa [LoggingResponseWriter.writeAll] using this

/-- The recording sink logs a run of `Write` calls in order. -/
theorem recorder_writeAll (chunks : List Bytes) (log : List Call) :
    (ResponseWriter.writeAll recorder log chunks).1 = log ++ chunks.map Call.write := by
  induction chunks generalizing log with
  | nil => simp [ResponseWriter.writeAll]
  | cons c cs ih =>
    have h : (recorder.Write log c).1 = log ++ [Call.write c] := rfl
    simp only [ResponseWriter.writeAll, h, ih, List.map_cons, List.append_assoc,
      List.singleton_append]

/-- C10: `WriteHeader(s)` and then `Write` of each chunk on a wrapper leave the
wrapped sink in the state the same calls made on it directly lead to, with `Write`
returning the sink's own results (so a recording sink logs exactly `WriteHeader(s)`
and the `Write`s in order); afterwards `StatusCode` is `s` and `Content` is the
last chunk. -/
theorem LoggingResponseWriter_forwards {σ : Type} (w : ResponseWriter σ) (sink : σ) (s : Int)
    (chunks : List Bytes) (hne : chunks ≠ []) :
    ((NewLoggingResponseWriter sink).WriteHeader w s |>.writeAll w chunks).1.wrapped =
        (w.writeAll (w.WriteHeader sink s) chunks).1 ∧
      ((NewLoggingResponseWriter sink).WriteHeader w s |>.writeAll w chunks).2 =
        (w.writeAll (w.WriteHeader sink s) chunks).2 ∧
      ((NewLoggingResponseWriter sink).WriteHeader w s |>.writeAll w chunks).1.StatusCode = s ∧
      ((NewLoggingResponseWriter sink).WriteHeader w s |>.writeAll w chunks).1.Content =
        chunks.getLast hne ∧
      ((NewLoggingResponseWriter ([] : List Call)).WriteHeader recorder s
          |>.writeAll recorder chunks).1.wrapped = .writeHeader s :: chunks.map Call.write := by
  refine ⟨?_, ?_, ?_, ?_, ?_⟩
  · exact (writeAll_wrapped w chunks _).1
  · exact (writeAll_wrapped w chunks _).2.1
  · exact (writeAll_wrapped w chunks _).2.2
  · exact writeAll_Content w chunks hne _
  · rw [(writeAll_wrapped recorder chunks _).1, recorder_writeAll]
    rfl

/-- Witness of C10: status 201, then the body `ok`, on the recording sink. -/
theorem LoggingResponseWriter_forwards_witness :
    ((NewLoggingResponseWriter ([] : List Call)).WriteHeader recorder 201
        |>.writeAll recorder ["ok".toList]).1.wrapped =
        [.writeHeader 201, .write "ok".toList] ∧
      ((NewLoggingResponseWriter ([] : List Call)).WriteHeader recorder 201
        |>.writeAll recorder ["ok".toList]).2 = [(2, none)] ∧
      ((NewLoggingResponseWriter ([] : List Call)).WriteHeader recorder 201
        |>.writeAll recorder ["ok".toList]).1.StatusCode = 201 ∧
      ((NewLoggingResponseWriter ([] : List Call)).WriteHeader recorder 201
        |>.writeAll recorder ["ok".toList]).1.Content = "ok".toList :=
  have h := LoggingResponseWriter_forwards recorder [] 201 ["ok".toList] (by simp)
  ⟨h.2.2.2.2, h.2.1, h.2.2.1, h.2.2.2.1⟩

/-! ## The method test of `dumpRequest` -/

/-- A text without `Authorization:` is left as it is by the Authorization substitution. -/
theorem replaceAll_expAuthorization_of_no_key (t : Bytes) (ht : ¬ authorizationKey <:+: t)
    (b : Bool) : replaceAllAux expAuthorization authorizationMask 0 b t = t := by
  have h := replaceAllAux_copy expAuthorization authorizationMask t [] b (by
    intro s _ hsuf b'
    cases h : expAuthorization b' (s ++ []) with
    | none => rfl
    | some r =>
      rw [List.append_nil] at h
      exact absurd ((expAuthorization_key h).2.isInfix.trans hsuf.isInfix) ht)
  simpa [replaceAllAux] using h

/-- C11: for a method other than `POST`, `dumpRequest` does not call
`replaceFormFileBody`: its output is the raw dump with the Authorization substitution
and then the token substitution applied, and nothing else. So a dump that holds
neither `Authorization:` nor `"token":` comes out byte for byte, file bodies of a
multipart upload included. -/
theorem dumpRequest_of_not_POST (method : String) (dump : Bytes) (hm : method ≠ "POST") :
    dumpRequest method dump =
        replaceAll expToken tokenMask (replaceAll expAuthorization authorizationMask dump) ∧
      (¬ authorizationKey <:+: dump → ¬ tokenKey <:+: dump →
        dumpRequest method dump = dump) := by
  have h : dumpRequest method dump =
      replaceAll expToken tokenMask (replaceAll expAuthorization authorizationMask dump) := by
    show replaceAll expToken tokenMask (replaceAll expAuthorization authorizationMask
      (if method = "POST" then replaceFormFileBody dump else dump)) = _
    rw [if_neg hm]
  refine ⟨h, fun ha ht => ?_⟩
  rw [h, replaceAll, replaceAll, replaceAll_expAuthorization_of_no_key dump ha,
    replaceAll_expToken_of_no_key dump ht]

set_option maxRecDepth 1000000 in
/-- Witness of C11: a multipart upload sent with `PUT`; the content of the file
`key.txt` is in the output, which is the dump itself. -/
theorem dumpRequest_of_not_POST_witness :
    dumpRequest "PUT"
        ("PUT /upload HTTP/1.1\r\nHost: example.com\r\n" ++
          "Content-Type: multipart/form-data; boundary=XYZ\r\n\r\n--XYZ\r\n" ++
          "Content-Disposition: form-data; name=\"file\"; filename=\"key.txt\"\r\n" ++
          "Content-Type: text/plain\r\n\r\nhunter2\r\n--XYZ--\r\n").toList =
      ("PUT /upload HTTP/1.1\r\nHost: example.com\r\n" ++
        "Content-Type: multipart/form-data; boundary=XYZ\r\n\r\n--XYZ\r\n" ++
        "Content-Disposition: form-data; name=\"file\"; filename=\"key.txt\"\r\n" ++
        "Content-Type: text/plain\r\n\r\nhunter2\r\n--XYZ--\r\n").toList :=
  (dumpRequest_of_not_POST "PUT" _ (by decide)).2 (by decide!) (by decide!)

set_option maxRecDepth 1000000 in
/-- The same upload sent with `POST` has the content of the file replaced. -/
theorem dumpRequest_same_upload_POST :
    dumpRequest "POST"
        ("POST /upload HTTP/1.1\r\nHost: example.com\r\n" ++
          "Content-Type: multipart/form-data; boundary=XYZ\r\n\r\n--XYZ\r\n" ++
          "Content-Disposition: form-data; name=\"file\"; filename=\"key.txt\"\r\n" ++
          "Content-Type: text/plain\r\n\r\nhunter2\r\n--XYZ--\r\n").toList =
      ("POST /upload HTTP/1.1\r\nHost: example.com\r\n" ++
        "Content-Type: multipart/form-data; boundary=XYZ\r\n\r\n--XYZ\r\n" ++
        "Content-Disposition: form-data; name=\"file\"; filename=\"key.txt\"\r\n" ++
        "Content-Type: text/plain\r\n\r\n<--FILE BODY REPLACED-->\r\n--XYZ--\r\n").toList := by
  decide!

end BaseSwaggerService
